import Mathlib

/-!
Verification development for the filesystem utility layer (`source/fs.cpp`).

The C++ code is shallowly embedded: machine integers (`u32`) are natural
numbers with explicit reduction modulo `2 ^ 32` wherever the C arithmetic can
wrap; byte buffers are functions `Nat → Nat` (only indices below the buffer
capacity are meaningful); file contents are a size plus a byte function (for
the streaming provider) or a `List Nat` (for the copy / generation
operations); the POSIX layer (`fread`, `fwrite`, `memmove`, `memset`,
`opendir`, `stat`) is modelled by pure functions mirroring its documented
behaviour on an idealised single-threaded filesystem.
-/

set_option maxRecDepth 10000

/-- The value `2 ^ 32`; `u32` arithmetic in the source is reduced modulo this. -/
def U32 : Nat := 2 ^ 32

/-- The sentinel `(u32) -1` used to initialise `offsetPrev` in `fsDataProvider`. -/
def SENTINEL : Nat := U32 - 1

/-! ## The windowed streaming provider (`fsDataProvider`, fs.cpp lines 117-178) -/

/-- State of `fsDataProvider`'s loop: the caller-controlled `offset`, the
internal `offsetPrev`, the window buffer, and (for specification purposes) the
log of `(offset, buffer)` pairs passed to `onUpdate` so far. -/
structure ProvState where
  offset : Nat
  offsetPrev : Nat
  buffer : Nat → Nat
  delivered : List (Nat × (Nat → Nat))

/-- Model of `memmove(buffer + dst, buffer + src, count)` on a byte buffer:
`memmove` copies as if through a temporary, which the functional update (whose
right-hand side reads the old buffer) reproduces exactly. -/
def memmoveBuf (dst src count : Nat) (buf : Nat → Nat) : Nat → Nat :=
  fun i => if dst ≤ i ∧ i < dst + count then buf (src + (i - dst)) else buf i

/-- Model of `memset(buffer + dst, 0x00, count)`. -/
def memsetZeroBuf (dst count : Nat) (buf : Nat → Nat) : Nat → Nat :=
  fun i => if dst ≤ i ∧ i < dst + count then 0 else buf i

/-- Model of `fseek(fp, pos, SEEK_SET); fread(buffer + dst, 1, count, fp)` on a
file of `size` bytes whose byte at index `j` is `data j`: it transfers
`min count (size - pos)` bytes (a read at or past end-of-file transfers
nothing) and leaves the rest of the buffer unchanged. -/
def freadBuf (data : Nat → Nat) (size pos dst count : Nat) (buf : Nat → Nat) : Nat → Nat :=
  fun i => if dst ≤ i ∧ i < dst + min count (size - pos) then data (pos + (i - dst)) else buf i

/-- The window refresh of `fsDataProvider` (fs.cpp lines 144-160), translated
branch by branch: backward seek (`offset < offsetPrev`) moves the overlap to
the tail of the buffer and reads the front; forward seek moves the overlap to
the front, zero-fills past end-of-file when `dataEnd > fileSize`, and reads the
tail.  All `u32` additions are reduced modulo `2 ^ 32` as in the C code. -/
def refreshWindow (size W : Nat) (data : Nat → Nat) (offset offsetPrev : Nat)
    (buf : Nat → Nat) : Nat → Nat :=
  if offset < offsetPrev then
    let dataEnd := (offset + W) % U32
    let overlap := if offsetPrev < dataEnd then dataEnd - offsetPrev else 0
    freadBuf data size offset 0 (W - overlap) (memmoveBuf (W - overlap) 0 overlap buf)
  else
    let dataEnd := (offset + W) % U32
    let dataEndPrev := (offsetPrev + W) % U32
    let overlap := if offset < dataEndPrev then dataEndPrev - offset else 0
    let b1 := memmoveBuf 0 (W - overlap) overlap buf
    let b2 := if size < dataEnd then memsetZeroBuf overlap (W - overlap) b1 else b1
    freadBuf data size ((offset + overlap) % U32) overlap (W - overlap) b2

/-- What a single iteration of the `while(core::running())` loop did. -/
inductive IterEvent
  | update
  | clamp
  | loopStep
deriving DecidableEq

/-- One iteration of `fsDataProvider`'s loop (fs.cpp lines 142-172): refresh
and deliver when the offset changed and is in range, otherwise clamp an
over-large offset to `fileSize`, otherwise hand control to `onLoop`. -/
def fsProviderIter (size W : Nat) (data : Nat → Nat) (s : ProvState) : ProvState × IterEvent :=
  if s.offset ≠ s.offsetPrev ∧ s.offset ≤ size then
    let buf := refreshWindow size W data s.offset s.offsetPrev s.buffer
    (⟨s.offset, s.offset, buf, s.delivered ++ [(s.offset, buf)]⟩, .update)
  else if size < s.offset then
    (⟨size, s.offsetPrev, s.buffer, s.delivered⟩, .clamp)
  else
    (s, .loopStep)

/-- The loop's reaction to `onLoop` storing a new offset `r`: run iterations
until control returns to `onLoop`.  At most two iterations are needed: a
clamping iteration (when `r > fileSize`) is followed by at most one refresh. -/
def fsProviderSeek (size W : Nat) (data : Nat → Nat) (s : ProvState) (r : Nat) : ProvState :=
  let s1 : ProvState := ⟨r, s.offsetPrev, s.buffer, s.delivered⟩
  match fsProviderIter size W data s1 with
  | (s2, .clamp) => (fsProviderIter size W data s2).1
  | (s2, _) => s2

/-- The state before the first iteration: `offsetPrev = (u32) -1` and a
`calloc`ed (all-zero) buffer.  The `offset` field is overwritten by the first
request before it is ever read. -/
def provInit : ProvState := ⟨SENTINEL, SENTINEL, fun _ => 0, []⟩

/-- Run `fsDataProvider`'s loop on the initial offset `o0` followed by the
offsets `rs` successively stored by `onLoop`. -/
def runProvider (size W : Nat) (data : Nat → Nat) (o0 : Nat) (rs : List Nat) : ProvState :=
  (o0 :: rs).foldl (fsProviderSeek size W data) provInit

/-- The window invariant of the specification: the buffer holds the file bytes
of `[o, o+W)`, with positions at or past the file size read as zero. -/
def windowOK (size W : Nat) (data : Nat → Nat) (o : Nat) (buf : Nat → Nat) : Prop :=
  ∀ i, i < W → buf i = if o + i < size then data (o + i) else 0

/-- The loop invariant of `fsDataProvider`: either no window has been
established yet (`offsetPrev` is still the sentinel and the buffer is still the
`calloc`ed zeros) or the current window is correct; and every window delivered
to `onUpdate` so far was correct. -/
def ProvInv (size W : Nat) (data : Nat → Nat) (s : ProvState) : Prop :=
  ((s.offsetPrev = SENTINEL ∧ ∀ i, s.buffer i = 0) ∨
    (s.offsetPrev ≤ size ∧ windowOK size W data s.offsetPrev s.buffer)) ∧
  ∀ e ∈ s.delivered, windowOK size W data e.1 e.2


/-! ## Claim C6: preconditions of the stream provider -/

/-- The error categories set through `errno` by the operations of `fs.cpp`. -/
inductive FsErr
  | notsup
  | noent
  | exist
  | canceled
deriving DecidableEq

/-- Outcome of `fsDataProvider`: either an early error (before the file is
opened, the buffer allocated, or any callback invoked — the `err` constructor
carries no loop state at all), or the state of the streaming loop. -/
inductive ProviderOutcome
  | err (e : FsErr)
  | ok (s : ProvState)

/-- Entry of `fsDataProvider` (fs.cpp lines 117-125): the callback checks and
the existence check, in source order, followed by the streaming loop. -/
def fsDataProvider (hasOnLoop hasOnUpdate pathExists : Bool)
    (size W : Nat) (data : Nat → Nat) (o0 : Nat) (rs : List Nat) : ProviderOutcome :=
  if hasOnLoop = false ∨ hasOnUpdate = false then .err .notsup
  else if pathExists = false then .err .noent
  else .ok (runProvider size W data o0 rs)


/-! ## Model of `fsGetFileSize` (fs.cpp lines 111-115) -/

/-- Model of `fsGetFileSize`: the source calls `stat(path, &st)` and returns
`(u32) st.st_size` while ignoring `stat`'s return value.  `statSize` is
`some n` when the metadata query succeeds with size `n`; when it fails
(`none`) the local `struct stat` is left uninitialised, so the function
returns whatever the stack happened to hold (`junk`), cast to `u32`. -/
def fsGetFileSize (statSize : Option Nat) (junk : Nat) : Nat :=
  match statSize with
  | some n => n % U32
  | none => junk % U32

/-! ## Byte strings and the filesystem model

Paths and names are byte strings (`List Nat`); byte `47` is `'/'` and byte
`46` is `'.'`.  The filesystem is a flat association list from paths to
entries; a directory entry stores the raw enumeration (`readdir`) order of its
children's names.  Path resolution strips one trailing `'/'`, modelling that
the platform resolves `p/` to the same object as `p` (the source passes
directory paths in both forms).  Entries created below a copy destination are
inserted into the map without updating the destination's stored child list;
the modelled operations never enumerate the destination, so this is
unobservable. -/

abbrev Str := List Nat

/-- Occurrence of `pat` at the front of `s`. -/
def strStarts : Str → Str → Bool
  | _, [] => true
  | [], _ :: _ => false
  | a :: s, b :: pat => a == b && strStarts s pat

/-- Model of `s.find(pat) != std::string::npos`: `pat` occurs somewhere in
`s` (an empty `pat` is found at position 0). -/
def strContains : Str → Str → Bool
  | [], pat => strStarts [] pat
  | a :: s, pat => strStarts (a :: s) pat || strContains s pat

/-- A filesystem entry: a directory with its children's names in raw
enumeration order, or a file with its byte content. -/
inductive FsEntry
  | dir (children : List Str)
  | file (content : List Nat)
deriving DecidableEq

/-- The filesystem: a flat association list from paths to entries; earlier
bindings shadow later ones. -/
abbrev FS := List (Str × FsEntry)

def lookupFS : FS → Str → Option FsEntry
  | [], _ => none
  | (q, e) :: fs, p => if q = p then some e else lookupFS fs p

/-- Path resolution: one trailing `'/'` is ignored. -/
def stripSlash (p : Str) : Str :=
  if p.getLast? = some 47 then p.dropLast else p

/-- Model of `fsExists` (fs.cpp lines 48-56): a plain-file open succeeds or
the path is a directory, i.e. the path resolves to any entry. -/
def fsExists (fs : FS) (p : Str) : Bool :=
  (lookupFS fs (stripSlash p)).isSome

/-- Model of `fsIsDirectory` (fs.cpp lines 58-66). -/
def fsIsDirectory (fs : FS) (p : Str) : Bool :=
  match lookupFS fs (stripSlash p) with
  | some (FsEntry.dir _) => true
  | _ => false

/-- The `dirWithSlash` computation of the directory listers (fs.cpp lines
295-296 and 317-318): append a trailing `'/'` if absent. -/
def dirWithSlash (p : Str) : Str :=
  if p ≠ [] ∧ p.getLast? = some 47 then p else p ++ [47]

/-- Model of `fsGetDirectoryContents` (fs.cpp lines 293-313) restricted to the
entry names: the raw enumeration order of the directory's children, including
any `"."` and `".."` the platform enumeration yields; an unopenable directory
yields the empty list.  Callers rebuild each entry's path as
`dirWithSlash p ++ name`, exactly as the source stores it in `FileInfo`. -/
def fsGetDirectoryContents (fs : FS) (p : Str) : List Str :=
  match lookupFS fs (stripSlash (dirWithSlash p)) with
  | some (FsEntry.dir ns) => ns
  | _ => []

/-- Insertion of a new binding (shadowing any earlier one). -/
def insertFS (p : Str) (e : FsEntry) (fs : FS) : FS := (p, e) :: fs

/-- Model of `mkdir(dest, 0777)`: fails when the path already exists (the
modelled filesystem has no permission or parent-missing failures). -/
def mkdirFS (fs : FS) (p : Str) : Option FS :=
  if fsExists fs p then none else some (insertFS (stripSlash p) (FsEntry.dir []) fs)

/-- The `u32` size returned by `fsGetFileSize` for an existing file of the
modelled filesystem (used by `fsPathCopy`); the source's behaviour on a
`stat` failure is modelled separately by `fsGetFileSize` and is unreachable
here because the copy loop is skipped when `fopen` fails. -/
def fsGetFileSizeOn (fs : FS) (p : Str) : Nat :=
  match lookupFS fs (stripSlash p) with
  | some (FsEntry.file c) => c.length % U32
  | _ => 0

/-! ## Progress reporting (`fsShowProgress`, fs.cpp lines 30-40) -/

/-- The value `2 ^ 64`; the `u64` product `pos * 100` is reduced modulo it. -/
def U64 : Nat := 2 ^ 64

/-- State threaded through an operation: the filesystem, the
last-reported-percentage value (`static u32 prevProgress` in the source — a
process-global that survives across operation calls, so it is an input here),
the number of `hid` polls so far, the log of `(pos, totalSize)` arguments of
every `fsShowProgress` call, the log of progress values actually displayed,
and the last `errno` value explicitly set. -/
structure CopySt where
  fs : FS
  prevProgress : Nat
  pollCount : Nat
  calls : List (Nat × Nat)
  shown : List Nat
  errno : Option FsErr
deriving DecidableEq

/-- Model of `fsShowProgress` (fs.cpp lines 30-40): compute
`progress = (u32)((pos * 100) / totalSize)`, display (and remember) it only
when it differs from the last displayed value, poll the cancel button, and
return `true` unless cancellation was requested.  `cancel` is the oracle of
`hid::pressed(BUTTON_B)` results, indexed by poll count. -/
def fsShowProgress (cancel : Nat → Bool) (pos total : Nat) (st : CopySt) : Bool × CopySt :=
  let progress := (pos * 100 % U64 / total) % U32
  let st1 : CopySt := { st with calls := st.calls ++ [(pos, total)] }
  let st2 : CopySt :=
    if st1.prevProgress ≠ progress then
      { st1 with prevProgress := progress, shown := st1.shown ++ [progress] }
    else st1
  (!(cancel st2.pollCount), { st2 with pollCount := st2.pollCount + 1 })

/-! ## Buffered copying (`fsPathCopy`, fs.cpp lines 189-237) -/

/-- The buffer bound `CTRX_BUFSIZ = 4 * 1024 * 1024` (fs.cpp line 20). -/
def CTRX_BUFSIZ : Nat := 4 * 1024 * 1024

/-- The successive `fwrite` request sizes of a chunked loop that writes
`remaining` bytes through a buffer of `bufsiz` bytes, truncating the final
chunk (`if(size - count < l_bufsiz) l_bufsiz = size - count`).  The `fuel`
argument makes the recursion structural; `fuel = remaining` suffices whenever
`bufsiz > 0`, and the callers only reach `bufsiz = 0` with `remaining = 0`. -/
def chunkSizesF : Nat → Nat → Nat → List Nat
  | 0, _, _ => []
  | fuel + 1, bufsiz, remaining =>
    if remaining = 0 then []
    else if remaining < bufsiz then [remaining]
    else bufsiz :: chunkSizesF fuel bufsiz (remaining - bufsiz)

def chunkSizes (bufsiz remaining : Nat) : List Nat :=
  chunkSizesF remaining bufsiz remaining

/-- The read/write loop of `fsPathCopy`'s file case (fs.cpp lines 222-229):
for each chunk, `pos` advances by the bytes written and, when progress is
shown, a progress call follows; a cancelled call sets `errno = ECANCELED` and
breaks.  Reads and writes of the idealised filesystem transfer each requested
chunk in full. -/
def copyFileLoop (cancel : Nat → Bool) (sp : Bool) (total : Nat) :
    List Nat → Nat → CopySt → Bool × Nat × CopySt
  | [], pos, st => (true, pos, st)
  | r :: rest, pos, st =>
    if sp then
      match fsShowProgress cancel (pos + r) total st with
      | (true, st2) => copyFileLoop cancel sp total rest (pos + r) st2
      | (false, st2) => (false, pos + r, { st2 with errno := some FsErr.canceled })
    else copyFileLoop cancel sp total rest (pos + r) st

/-- A conditional progress tick: `showProgress && !fsShowProgress(...)` in the
source aborts with `ECANCELED`; when `showProgress` is false no call is
made. -/
def progressTick (cancel : Nat → Bool) (sp : Bool) (pos total : Nat) (st : CopySt) :
    Bool × CopySt :=
  if sp then fsShowProgress cancel pos total st else (true, st)

/-- The child loop of `fsPathCopy`'s directory case (fs.cpp lines 208-210):
copy each child of the source in enumeration order, short-circuiting on the
first failure. -/
def copyChildren (go : Str → Str → Bool → CopySt → Bool × CopySt)
    (srcSlash dest : Str) (sp : Bool) : List Str → CopySt → Bool × CopySt
  | [], st => (true, st)
  | n :: ns, st =>
    match go (srcSlash ++ n) (dest ++ [47] ++ n) sp st with
    | (true, st2) => copyChildren go srcSlash dest sp ns st2
    | (false, st2) => (false, st2)

/-- Model of `fsPathCopy` (fs.cpp lines 189-237), by structural recursion on a
fuel bound on the recursion depth (the source recursion terminates on any
acyclic filesystem; fuel exhaustion returns `false` without touching
anything).  Faithfully modelled details: the `fsExists(dest)` check sets
`EEXIST`; a cancelled initial progress tick sets `ECANCELED`; the directory
case refuses with `ENOTSUP` exactly when `dest.find(path + "/")` succeeds
(a substring search, not a prefix check); `fopen(dest, "wb")` creates the
destination file even when the source cannot be opened, in which case the
guarded copy block is skipped and the function returns `true` (a quirk of the
source); after a cancelled chunk the bytes already written remain in the
destination; the final result of the file case additionally requires
`pos == total`. -/
def fsPathCopy (cancel : Nat → Bool) : Nat → Str → Str → Bool → CopySt → Bool × CopySt
  | 0, _, _, _, st => (false, st)
  | fuel + 1, path, dest, sp, st =>
    if fsExists st.fs dest then (false, { st with errno := some FsErr.exist })
    else
      match progressTick cancel sp 0 1 st with
      | (false, st1) => (false, { st1 with errno := some FsErr.canceled })
      | (true, st1) =>
        if fsIsDirectory st1.fs path then
          if strContains dest (path ++ [47]) then
            (false, { st1 with errno := some FsErr.notsup })
          else
            match mkdirFS st1.fs dest with
            | none => (false, st1)
            | some fs2 =>
              match progressTick cancel sp 1 2 { st1 with fs := fs2 } with
              | (false, st2) => (false, { st2 with errno := some FsErr.canceled })
              | (true, st2) =>
                copyChildren (fsPathCopy cancel fuel) (dirWithSlash path) dest sp
                  (fsGetDirectoryContents st2.fs path) st2
        else
          match lookupFS st1.fs (stripSlash path) with
          | some (FsEntry.file c) =>
            let total := fsGetFileSizeOn st1.fs path
            let res := copyFileLoop cancel sp total
              (chunkSizes (min total CTRX_BUFSIZ) c.length) 0 st1
            (res.1 && (res.2.1 == total),
              { res.2.2 with
                fs := insertFS (stripSlash dest) (FsEntry.file (c.take res.2.1)) res.2.2.fs })
          | _ => (true, { st1 with fs := insertFS (stripSlash dest) (FsEntry.file []) st1.fs })

/-! ## Dummy-file generation (`fsCreateDummyFile`, fs.cpp lines 259-291) -/

/-- The pattern-fill loop (fs.cpp lines 274-275): `buffer[count] = byte` with
`byte += inc` in wrapping `u8` arithmetic. -/
def progFillList : Nat → Nat → Nat → List Nat
  | _, _, 0 => []
  | b, inc, n + 1 => b :: progFillList ((b + inc) % 256) inc n

/-- The buffer contents of `fsCreateDummyFile` (fs.cpp lines 271-276): a
`content` value with a non-zero high byte selects the arithmetic progression
starting at the low byte with step the high byte; otherwise `memset` fills the
whole buffer with the (low byte of the) constant. -/
def dummyBuffer (content bufsiz : Nat) : List Nat :=
  if content &&& 0xFF00 ≠ 0 then
    progFillList (content &&& 0xFF) ((content >>> 8) &&& 0xFF) bufsiz
  else
    List.replicate bufsiz (content % 256)

/-- Result of `fsCreateDummyFile`: the returned flag, the bytes written to the
file, and the `(pos, totalSize)` arguments of the progress calls made. -/
structure DummyResult where
  ret : Bool
  written : List Nat
  calls : List (Nat × Nat)
deriving DecidableEq

/-- The write loop of `fsCreateDummyFile` (fs.cpp lines 278-285): each chunk
writes a prefix of the buffer (`w i` bounds the bytes the `i`-th `fwrite`
manages to write), `pos` accumulates the bytes written, and when progress is
shown a `(pos, size)` progress call follows each chunk, cancellation breaking
the loop. -/
def dummyLoop (cancel : Nat → Bool) (sp : Bool) (size : Nat) (buffer : List Nat)
    (w : Nat → Nat) : List Nat → Nat → Nat → List Nat → List (Nat × Nat) →
    Nat × List Nat × List (Nat × Nat)
  | [], _, pos, written, calls => (pos, written, calls)
  | r :: rest, i, pos, written, calls =>
    let wr := min (w i) r
    if sp then
      if cancel i then (pos + wr, written ++ buffer.take wr, calls ++ [(pos + wr, size)])
      else dummyLoop cancel sp size buffer w rest (i + 1) (pos + wr)
        (written ++ buffer.take wr) (calls ++ [(pos + wr, size)])
    else dummyLoop cancel sp size buffer w rest (i + 1) (pos + wr)
      (written ++ buffer.take wr) calls

/-- Model of `fsCreateDummyFile` (fs.cpp lines 259-291): an existing path
fails with `EEXIST`; progress reporting is suppressed for sizes below
`CTRX_BUFSIZ`; when enabled, one `(0, 1)` tick precedes the loop (its return
value is ignored by the source); the buffer of `min size CTRX_BUFSIZ` bytes is
filled once and written repeatedly, truncating the final chunk; the result is
`pos == size`. -/
def fsCreateDummyFile (cancel : Nat → Bool) (pathExists : Bool) (size content : Nat)
    (sp0 : Bool) (w : Nat → Nat) : DummyResult :=
  if pathExists then ⟨false, [], []⟩
  else
    let sp := sp0 && !(size < CTRX_BUFSIZ : Bool)
    let bufsiz := min size CTRX_BUFSIZ
    let res := dummyLoop cancel sp size (dummyBuffer content bufsiz) w
      (chunkSizes bufsiz size) 0 0 [] (if sp then [(0, 1)] else [])
    ⟨res.1 == size, res.2.1, res.2.2⟩

/-! ## Extended directory listing (`fsGetDirectoryContentsEx`, fs.cpp lines
315-341) and its comparator (`fsAlphabetizeFoldersFiles`, lines 22-28) -/

/-- The extended directory entry of the source (`FileInfoEx`). -/
structure FileInfoEx where
  path : Str
  name : Str
  isDirectory : Bool
deriving DecidableEq

/-- `tolower` on a byte, as used by `strcasecmp` for ASCII. -/
def lowerByte (c : Nat) : Nat :=
  if 65 ≤ c ∧ c ≤ 90 then c + 32 else c

/-- Three-way result of `strcasecmp`: case-insensitive byte-wise comparison,
a shorter string comparing less when it is a strict front segment. -/
def caseCompare : Str → Str → Ordering
  | [], [] => Ordering.eq
  | [], _ :: _ => Ordering.lt
  | _ :: _, [] => Ordering.gt
  | a :: s, b :: t =>
    if lowerByte a = lowerByte b then caseCompare s t
    else if lowerByte a < lowerByte b then Ordering.lt
    else Ordering.gt

/-- The strict comparator `fsAlphabetizeFoldersFiles` (fs.cpp lines 22-28):
directories sort before files; within the same kind,
`strcasecmp(a.name, b.name) < 0`. -/
def fsAlphabetizeFoldersFiles (a b : FileInfoEx) : Bool :=
  if a.isDirectory = b.isDirectory then caseCompare a.name b.name == Ordering.lt
  else a.isDirectory

/-- The non-strict order induced by the comparator, in the sense used by
`std::sort`: `a` may precede `b` when `b` does not strictly precede `a`. -/
abbrev entLE (a b : FileInfoEx) : Prop := fsAlphabetizeFoldersFiles b a = false

/-- Model of `fsGetDirectoryContentsEx` (fs.cpp lines 315-341): enumerate the
directory, drop `"."` and `".."`, build each entry's path as
`dirWithSlash ++ name` and probe `fsIsDirectory` on it, then sort with the
comparator.  `std::sort` guarantees a permutation ordered by the comparator
(ties in unspecified order); insertion sort realises that contract. -/
def fsGetDirectoryContentsEx (fs : FS) (directory : Str) : List FileInfoEx :=
  let dws := dirWithSlash directory
  let entries := ((fsGetDirectoryContents fs directory).filter
      (fun n => !(n == [46]) && !(n == [46, 46]))).map
    (fun n => FileInfoEx.mk (dws ++ n) n (fsIsDirectory fs (dws ++ n)))
  List.insertionSort entLE entries

/-! ## Well-formedness of the modelled filesystem -/

/-- A well-formed child name: nonempty, free of `'/'`, and not one of the
pseudo-entries `"."` and `".."` (the platform enumeration of this codebase
does not produce them; `fsGetDirectoryContentsEx` additionally filters them
defensively). -/
def nameOK (n : Str) : Bool :=
  !n.isEmpty && n.all (fun b => !(b == 47)) && !(n == [46]) && !(n == [46, 46])

def entryNamesOK : FsEntry → Bool
  | FsEntry.dir ns => ns.all nameOK
  | FsEntry.file _ => true

/-- Every directory of the filesystem has well-formed child names. -/
def wfNames (fs : FS) : Prop := ∀ e ∈ fs, entryNamesOK e.2 = true

def entrySizeOK : FsEntry → Bool
  | FsEntry.file c => decide (c.length < U32)
  | FsEntry.dir _ => true

/-- Every file of the filesystem fits the `u32` size type (on the target
platform the storage medium enforces this). -/
def wfSizes (fs : FS) : Prop := ∀ e ∈ fs, entrySizeOK e.2 = true

/-- All progress calls logged so far had a positive total. -/
def callsPos (st : CopySt) : Prop := ∀ c ∈ st.calls, 0 < c.2

/-! ## Theorems -/

/-- Correctness of the very first fill: refreshing from the sentinel
`offsetPrev` over the `calloc`ed buffer yields a correct window, provided the
window end `o + W` does not wrap around the `u32` range. -/
theorem refreshWindow_fill (size W : Nat) (data : Nat → Nat) (o : Nat) (buf : Nat → Nat)
    (hbuf : ∀ i, buf i = 0) (ho : o < SENTINEL) (hW : o + W < U32) :
    windowOK size W data o (refreshWindow size W data o SENTINEL buf) := by
  intro i hi
  have hmod : (o + W) % U32 = o + W := Nat.mod_eq_of_lt hW
  have hsentval : SENTINEL = U32 - 1 := rfl
  have hU : U32 = 2 ^ 32 := rfl
  simp only [refreshWindow]
  rw [if_pos ho, hmod]
  rw [if_neg (by omega : ¬ SENTINEL < o + W)]
  simp only [freadBuf, memmoveBuf, Nat.sub_zero, Nat.zero_add, Nat.zero_le, true_and,
    Nat.add_zero]
  by_cases h1 : i < min W (size - o)
  · rw [if_pos h1, if_pos (by omega : o + i < size)]
  · rw [if_neg h1]
    rw [if_neg (by omega : ¬ (W ≤ i ∧ i < W)), hbuf i]
    rw [if_neg (by omega : ¬ o + i < size)]

/-- Correctness of a window refresh from a previously correct window: both the
backward-seek and the forward-seek overlap logic preserve the window
invariant, provided neither window end wraps around the `u32` range. -/
theorem refreshWindow_ok (size W : Nat) (data : Nat → Nat) (o p : Nat) (buf : Nat → Nat)
    (hbuf : windowOK size W data p buf) (hne : o ≠ p)
    (hoW : o + W < U32) (hpW : p + W < U32) :
    windowOK size W data o (refreshWindow size W data o p buf) := by
  intro i hi
  have hmodo : (o + W) % U32 = o + W := Nat.mod_eq_of_lt hoW
  have hmodp : (p + W) % U32 = p + W := Nat.mod_eq_of_lt hpW
  rcases Nat.lt_or_ge o p with hlt | hge
  · -- backward seek: `offset < offsetPrev`
    simp only [refreshWindow]
    rw [if_pos hlt, hmodo]
    by_cases hov : p < o + W
    · -- positive overlap `o + W - p`, moved to the tail of the buffer
      rw [if_pos hov]
      simp only [freadBuf, memmoveBuf, Nat.sub_zero, Nat.zero_add, Nat.zero_le, true_and]
      by_cases h1 : i < min (W - (o + W - p)) (size - o)
      · rw [if_pos h1, if_pos (by omega : o + i < size)]
      · rw [if_neg h1]
        by_cases h2 : W - (o + W - p) ≤ i ∧ i < W - (o + W - p) + (o + W - p)
        · rw [if_pos h2]
          have hj : i - (W - (o + W - p)) < W := by omega
          rw [hbuf _ hj]
          have hidx : p + (i - (W - (o + W - p))) = o + i := by omega
          rw [hidx]
        · rw [if_neg h2, hbuf i hi]
          rw [if_neg (by omega : ¬ p + i < size), if_neg (by omega : ¬ o + i < size)]
    · -- no overlap: the whole window is read fresh
      rw [if_neg hov]
      simp only [freadBuf, memmoveBuf, Nat.sub_zero, Nat.zero_add, Nat.zero_le, true_and,
        Nat.add_zero]
      by_cases h1 : i < min W (size - o)
      · rw [if_pos h1, if_pos (by omega : o + i < size)]
      · rw [if_neg h1, if_neg (by omega : ¬ (W ≤ i ∧ i < W)), hbuf i hi]
        rw [if_neg (by omega : ¬ p + i < size), if_neg (by omega : ¬ o + i < size)]
  · -- forward seek: `offset >= offsetPrev` (and distinct, so `p < o`)
    have hgt : p < o := Nat.lt_of_le_of_ne hge (fun h => hne h.symm)
    simp only [refreshWindow]
    rw [if_neg (by omega : ¬ o < p), hmodo, hmodp]
    by_cases hov : o < p + W
    · -- positive overlap `p + W - o`, moved to the front of the buffer
      rw [if_pos hov]
      have hpos : (o + (p + W - o)) % U32 = o + (p + W - o) := Nat.mod_eq_of_lt (by omega)
      rw [hpos]
      by_cases hms : size < o + W
      · rw [if_pos hms]
        simp only [freadBuf, memmoveBuf, memsetZeroBuf, Nat.sub_zero, Nat.zero_add,
          Nat.zero_le, true_and]
        by_cases hr : p + W - o ≤ i ∧ i < p + W - o + min (W - (p + W - o)) (size - (o + (p + W - o)))
        · rw [if_pos hr]
          have hidx : o + (p + W - o) + (i - (p + W - o)) = o + i := by omega
          rw [hidx, if_pos (by omega : o + i < size)]
        · rw [if_neg hr]
          by_cases h2 : i < p + W - o
          · rw [if_neg (by omega : ¬ (p + W - o ≤ i ∧ i < p + W - o + (W - (p + W - o))))]
            rw [if_pos (by omega : i < p + W - o)]
            have hj : W - (p + W - o) + i < W := by omega
            rw [hbuf _ hj]
            have hidx : p + (W - (p + W - o) + i) = o + i := by omega
            rw [hidx]
          · rw [if_pos (by omega : p + W - o ≤ i ∧ i < p + W - o + (W - (p + W - o)))]
            rw [if_neg (by omega : ¬ o + i < size)]
      · rw [if_neg hms]
        simp only [freadBuf, memmoveBuf, Nat.sub_zero, Nat.zero_add, Nat.zero_le, true_and]
        by_cases hr : p + W - o ≤ i ∧ i < p + W - o + min (W - (p + W - o)) (size - (o + (p + W - o)))
        · rw [if_pos hr]
          have hidx : o + (p + W - o) + (i - (p + W - o)) = o + i := by omega
          rw [hidx, if_pos (by omega : o + i < size)]
        · rw [if_neg hr]
          rw [if_pos (by omega : i < p + W - o)]
          have hj : W - (p + W - o) + i < W := by omega
          rw [hbuf _ hj]
          have hidx : p + (W - (p + W - o) + i) = o + i := by omega
          rw [hidx]
    · -- no overlap: move nothing, read the whole window at `offset`
      rw [if_neg hov]
      have hpos : (o + 0) % U32 = o := by rw [Nat.add_zero]; exact Nat.mod_eq_of_lt (by omega)
      rw [hpos]
      by_cases hms : size < o + W
      · rw [if_pos hms]
        simp only [freadBuf, memmoveBuf, memsetZeroBuf, Nat.sub_zero, Nat.zero_add,
          Nat.zero_le, true_and, Nat.add_zero]
        by_cases hr : i < min W (size - o)
        · rw [if_pos hr, if_pos (by omega : o + i < size)]
        · rw [if_neg hr, if_pos (by omega : i < W), if_neg (by omega : ¬ o + i < size)]
      · rw [if_neg hms]
        simp only [freadBuf, memmoveBuf, Nat.sub_zero, Nat.zero_add, Nat.zero_le, true_and,
          Nat.add_zero]
        by_cases hr : i < min W (size - o)
        · rw [if_pos hr, if_pos (by omega : o + i < size)]
        · exact absurd (by omega : i < min W (size - o)) hr

/-- Characterisation of `fsProviderSeek` when the (clamped) requested offset
differs from `offsetPrev`: the window is refreshed and delivered. -/
theorem fsProviderSeek_update (size W : Nat) (data : Nat → Nat) (s : ProvState) (r : Nat)
    (h : (if size < r then size else r) ≠ s.offsetPrev) :
    fsProviderSeek size W data s r =
      ⟨if size < r then size else r, if size < r then size else r,
        refreshWindow size W data (if size < r then size else r) s.offsetPrev s.buffer,
        s.delivered ++ [(if size < r then size else r,
          refreshWindow size W data (if size < r then size else r) s.offsetPrev s.buffer)]⟩ := by
  by_cases hr : size < r
  · rw [if_pos hr] at h ⊢
    have h1 : ¬ ((⟨r, s.offsetPrev, s.buffer, s.delivered⟩ : ProvState).offset ≠ s.offsetPrev ∧
        (⟨r, s.offsetPrev, s.buffer, s.delivered⟩ : ProvState).offset ≤ size) := by
      simp only []; omega
    simp only [fsProviderSeek, fsProviderIter, if_neg h1, if_pos hr]
    have h2 : (⟨size, s.offsetPrev, s.buffer, s.delivered⟩ : ProvState).offset ≠ s.offsetPrev ∧
        (⟨size, s.offsetPrev, s.buffer, s.delivered⟩ : ProvState).offset ≤ size := by
      exact ⟨h, Nat.le_refl _⟩
    rw [if_pos h2]
  · rw [if_neg hr] at h ⊢
    have h1 : (⟨r, s.offsetPrev, s.buffer, s.delivered⟩ : ProvState).offset ≠ s.offsetPrev ∧
        (⟨r, s.offsetPrev, s.buffer, s.delivered⟩ : ProvState).offset ≤ size :=
      ⟨h, Nat.le_of_not_lt hr⟩
    simp only [fsProviderSeek, fsProviderIter, if_pos h1]

/-- Characterisation of `fsProviderSeek` when the (clamped) requested offset
equals `offsetPrev`: no refresh happens, nothing is delivered. -/
theorem fsProviderSeek_stay (size W : Nat) (data : Nat → Nat) (s : ProvState) (r : Nat)
    (h : (if size < r then size else r) = s.offsetPrev) :
    fsProviderSeek size W data s r =
      ⟨if size < r then size else r, s.offsetPrev, s.buffer, s.delivered⟩ := by
  by_cases hr : size < r
  · rw [if_pos hr] at h ⊢
    have h1 : ¬ ((⟨r, s.offsetPrev, s.buffer, s.delivered⟩ : ProvState).offset ≠ s.offsetPrev ∧
        (⟨r, s.offsetPrev, s.buffer, s.delivered⟩ : ProvState).offset ≤ size) := by
      simp only []; omega
    simp only [fsProviderSeek, fsProviderIter, if_neg h1, if_pos hr]
    have h2 : ¬ ((⟨size, s.offsetPrev, s.buffer, s.delivered⟩ : ProvState).offset ≠ s.offsetPrev ∧
        (⟨size, s.offsetPrev, s.buffer, s.delivered⟩ : ProvState).offset ≤ size) := by
      simp only []; omega
    rw [if_neg h2]
    have h3 : ¬ size < (⟨size, s.offsetPrev, s.buffer, s.delivered⟩ : ProvState).offset :=
      Nat.lt_irrefl _
    rw [if_neg h3]
  · rw [if_neg hr] at h ⊢
    have h1 : ¬ ((⟨r, s.offsetPrev, s.buffer, s.delivered⟩ : ProvState).offset ≠ s.offsetPrev ∧
        (⟨r, s.offsetPrev, s.buffer, s.delivered⟩ : ProvState).offset ≤ size) := by
      simp only []; omega
    have h3 : ¬ size < (⟨r, s.offsetPrev, s.buffer, s.delivered⟩ : ProvState).offset := by
      simp only []; omega
    simp only [fsProviderSeek, fsProviderIter, if_neg h1, if_neg h3]

theorem provInv_init (size W : Nat) (data : Nat → Nat) : ProvInv size W data provInit := by
  refine ⟨Or.inl ⟨rfl, fun i => rfl⟩, fun e he => absurd he (List.not_mem_nil e)⟩

/-- One `onLoop`-step preserves the loop invariant, provided `fileSize + W`
does not wrap around the `u32` range. -/
theorem provInv_seek (size W : Nat) (data : Nat → Nat) (s : ProvState) (r : Nat)
    (Hov : size + W < U32) (h : ProvInv size W data s) :
    ProvInv size W data (fsProviderSeek size W data s r) := by
  by_cases heq : (if size < r then size else r) = s.offsetPrev
  · rw [fsProviderSeek_stay size W data s r heq]
    exact ⟨h.1, h.2⟩
  · rw [fsProviderSeek_update size W data s r heq]
    have ho : (if size < r then size else r) ≤ size := by split <;> omega
    have hwin : windowOK size W data (if size < r then size else r)
        (refreshWindow size W data (if size < r then size else r) s.offsetPrev s.buffer) := by
      rcases h.1 with ⟨hp, hz⟩ | ⟨hp, hw⟩
      · rw [hp] at heq ⊢
        refine refreshWindow_fill size W data _ s.buffer hz ?_ (by omega)
        have : SENTINEL = U32 - 1 := rfl
        omega
      · exact refreshWindow_ok size W data _ s.offsetPrev s.buffer hw heq (by omega) (by omega)
    refine ⟨Or.inr ⟨ho, hwin⟩, fun e he => ?_⟩
    rcases List.mem_append.mp he with h1 | h1
    · exact h.2 e h1
    · rcases List.mem_singleton.mp h1 with rfl
      exact hwin

/-- The loop invariant holds after any run of the provider loop. -/
theorem provInv_foldl (size W : Nat) (data : Nat → Nat) (Hov : size + W < U32) :
    ∀ (l : List Nat) (s : ProvState), ProvInv size W data s →
      ProvInv size W data (l.foldl (fsProviderSeek size W data) s)
  | [], _, h => h
  | r :: l, s, h =>
    provInv_foldl size W data Hov l (fsProviderSeek size W data s r)
      (provInv_seek size W data s r Hov h)

theorem provInv_run (size W : Nat) (data : Nat → Nat) (o0 : Nat) (rs : List Nat)
    (Hov : size + W < U32) :
    ProvInv size W data (runProvider size W data o0 rs) :=
  provInv_foldl size W data Hov (o0 :: rs) provInit (provInv_init size W data)

/-! ## Claims C1, C2, C3 -/

/-- C1 (amended).  Window invariant of the streaming data provider: in every
iteration of `fsDataProvider` in which `onUpdate` is invoked, the `W`-byte
buffer passed to `onUpdate` holds exactly the bytes of the backing file in
`[offset, offset + W)`, with every byte position at or past the file size
delivered as zero — for every initial offset and every sequence of offsets
produced by `onLoop`, provided the window end cannot exceed the `u32` range
(`fileSize + W < 2 ^ 32`).  Without that side condition the claim fails, see
the counterexample. -/
theorem fsDataProvider_window_invariant (size W : Nat) (data : Nat → Nat) (o0 : Nat)
    (rs : List Nat) (Hov : size + W < U32) :
    ∀ e ∈ (runProvider size W data o0 rs).delivered, windowOK size W data e.1 e.2 :=
  (provInv_run size W data o0 rs Hov).2

/-- Witness for C1 at a concrete input: file size 100, window 8, initial
offset 3, then seeks to 90 (window straddles nothing) and back to 0. -/
theorem fsDataProvider_window_invariant_witness :
    windowOK 100 8 (fun i => (i * 3 + 7) % 256)
      (((runProvider 100 8 (fun i => (i * 3 + 7) % 256) 3 [90, 0]).delivered.get
        ⟨1, by decide⟩).1)
      (((runProvider 100 8 (fun i => (i * 3 + 7) % 256) 3 [90, 0]).delivered.get
        ⟨1, by decide⟩).2) :=
  fsDataProvider_window_invariant 100 8 (fun i => (i * 3 + 7) % 256) 3 [90, 0] (by decide)
    _ (List.get_mem _ 1 (by decide))

/-- Counterexample to C1 as stated: for a file of size `2^32 - 8` and window
16, the forward seek from offset 0 to the in-range offset `2^32 - 10` computes
`dataEnd = offset + buffSize` in wrapping `u32` arithmetic, so the
`dataEnd > fileSize` zero-fill is skipped and the short `fread` leaves stale
bytes from the previous window: position 2 of the delivered window lies past
the end of the file yet holds the stale byte `3`, not `0`. -/
theorem fsDataProvider_window_invariant_counterexample :
    ¬ (∀ e ∈ (runProvider 4294967288 16 (fun i => (i + 1) % 256) 0 [4294967286]).delivered,
        windowOK 4294967288 16 (fun i => (i + 1) % 256) e.1 e.2) := by
  intro h
  have h2 := h ((runProvider 4294967288 16 (fun i => (i + 1) % 256) 0
      [4294967286]).delivered.get ⟨1, by decide⟩) (List.get_mem _ 1 (by decide))
  unfold windowOK at h2
  exact absurd (h2 2 (by decide)) (by decide)

/-- C2.  Round-trip correctness of the overlap-reuse logic: for a file of size
`S` and window `W < S`, starting at offset 0, seeking forward to `k` with
`0 < k < S - W`, then seeking back to 0 delivers a window byte-for-byte
identical to the first window delivered at offset 0. -/
theorem fsDataProvider_roundtrip (S W k : Nat) (data : Nat → Nat)
    (_hW : W < S) (hk0 : 0 < k) (hkW : k + W < S) (hS : S < U32) :
    ∀ i, i < W → (runProvider S W data 0 [k, 0]).buffer i =
      (runProvider S W data 0 []).buffer i := by
  have hsent : SENTINEL = U32 - 1 := rfl
  have hU : U32 = 2 ^ 32 := rfl
  have h0ne : (if S < 0 then S else 0) ≠ provInit.offsetPrev := by
    simp only [provInit, if_neg (Nat.not_lt_zero S)]
    show 0 ≠ SENTINEL
    omega
  have hA := fsProviderSeek_update S W data provInit 0 h0ne
  rw [if_neg (Nat.not_lt_zero S)] at hA
  set b1 := refreshWindow S W data 0 provInit.offsetPrev provInit.buffer with hb1
  have hw1 : windowOK S W data 0 b1 := by
    rw [hb1]
    show windowOK S W data 0 (refreshWindow S W data 0 SENTINEL (fun _ => 0))
    exact refreshWindow_fill S W data 0 (fun _ => 0) (fun _ => rfl) (by omega) (by omega)
  have sA : ProvState := ⟨0, 0, b1, provInit.delivered ++ [(0, b1)]⟩
  -- second step: seek to k
  have hkne : (if S < k then S else k) ≠
      (⟨0, 0, b1, provInit.delivered ++ [(0, b1)]⟩ : ProvState).offsetPrev := by
    rw [if_neg (by omega : ¬ S < k)]
    show k ≠ 0
    omega
  have hB := fsProviderSeek_update S W data ⟨0, 0, b1, provInit.delivered ++ [(0, b1)]⟩ k hkne
  rw [if_neg (by omega : ¬ S < k)] at hB
  set b2 := refreshWindow S W data k 0 b1 with hb2
  have hw2 : windowOK S W data k b2 := by
    rw [hb2]
    exact refreshWindow_ok S W data k 0 b1 hw1 (by omega) (by omega) (by omega)
  -- third step: seek back to 0
  have h0ne2 : (if S < 0 then S else 0) ≠
      (⟨k, k, b2, (provInit.delivered ++ [(0, b1)]) ++ [(k, b2)]⟩ : ProvState).offsetPrev := by
    rw [if_neg (Nat.not_lt_zero S)]
    show (0 : Nat) ≠ k
    omega
  have hC := fsProviderSeek_update S W data
    ⟨k, k, b2, (provInit.delivered ++ [(0, b1)]) ++ [(k, b2)]⟩ 0 h0ne2
  rw [if_neg (Nat.not_lt_zero S)] at hC
  set b3 := refreshWindow S W data 0 k b2 with hb3
  have hw3 : windowOK S W data 0 b3 := by
    rw [hb3]
    exact refreshWindow_ok S W data 0 k b2 hw2 (by omega) (by omega) (by omega)
  intro i hi
  have hrunA : runProvider S W data 0 [] = ⟨0, 0, b1, provInit.delivered ++ [(0, b1)]⟩ := by
    unfold runProvider
    simp only [List.foldl]
    exact hA
  have hrunC : runProvider S W data 0 [k, 0] =
      ⟨0, 0, b3, ((provInit.delivered ++ [(0, b1)]) ++ [(k, b2)]) ++ [(0, b3)]⟩ := by
    unfold runProvider
    simp only [List.foldl]
    rw [hA, hB, hC]
  rw [hrunA, hrunC]
  show b3 i = b1 i
  rw [hw3 i hi, hw1 i hi]

/-- Witness for C2 at a concrete input: size 10, window 3, roundtrip 0-4-0. -/
theorem fsDataProvider_roundtrip_witness :
    (runProvider 10 3 (fun i => i + 1) 0 [4, 0]).buffer 1 =
      (runProvider 10 3 (fun i => i + 1) 0 []).buffer 1 :=
  fsDataProvider_roundtrip 10 3 4 (fun i => i + 1) (by decide) (by decide) (by decide)
    (by decide) 1 (by decide)

/-- C3 (amended).  Over-seek clamping: (a) whenever the caller-controlled
offset exceeds the file size, the loop iteration clamps the offset to
`fileSize`, leaves the buffer and `offsetPrev` untouched (no read) and invokes
neither callback; and (b) provided the window end cannot exceed the `u32`
range (`fileSize + W < 2 ^ 32`), in every window delivered to `onUpdate`,
every byte at a position at or past the file size is zero.  Without the side
condition part (b) fails, see the counterexample. -/
theorem fsDataProvider_clamp (size W : Nat) (data : Nat → Nat) :
    (∀ s : ProvState, size < s.offset →
      fsProviderIter size W data s =
        (⟨size, s.offsetPrev, s.buffer, s.delivered⟩, IterEvent.clamp)) ∧
    (size + W < U32 → ∀ o0 : Nat, ∀ rs : List Nat,
      ∀ e ∈ (runProvider size W data o0 rs).delivered,
        ∀ i, i < W → size ≤ e.1 + i → e.2 i = 0) := by
  constructor
  · intro s hs
    unfold fsProviderIter
    rw [if_neg (by omega : ¬ (s.offset ≠ s.offsetPrev ∧ s.offset ≤ size)), if_pos hs]
  · intro Hov o0 rs e he i hi hpast
    have hw := (provInv_run size W data o0 rs Hov).2 e he
    rw [hw i hi, if_neg (by omega : ¬ e.1 + i < size)]

/-- Witness for C3 at concrete inputs: a clamping iteration at offset 12 with
file size 10, and the zero tail of windows delivered for a size-10 file with
window 4 after seeking past the end (offset 15, clamped to 10) and to 8. -/
theorem fsDataProvider_clamp_witness :
    fsProviderIter 10 4 (fun i => i + 1) ⟨12, 5, fun _ => 9, []⟩ =
      (⟨10, 5, fun _ => 9, []⟩, IterEvent.clamp) ∧
    (∀ e ∈ (runProvider 10 4 (fun i => i + 1) 0 [15, 8]).delivered,
      ∀ i, i < 4 → 10 ≤ e.1 + i → e.2 i = 0) :=
  ⟨(fsDataProvider_clamp 10 4 (fun i => i + 1)).1 ⟨12, 5, fun _ => 9, []⟩ (by decide),
    (fsDataProvider_clamp 10 4 (fun i => i + 1)).2 (by decide) 0 [15, 8]⟩

/-- Counterexample to C3 as stated: for a file of size `2^32 - 8` and window
16, after a forward seek to the in-range offset `2^32 - 10` (whose window end
exceeds the file size), the `u32` computation of the window end wraps, the
zero-fill is skipped, and position 3 of the delivered window — which lies past
the end of the file — holds the stale byte `5`, not `0`. -/
theorem fsDataProvider_clamp_counterexample :
    ¬ (∀ e ∈ (runProvider 4294967288 16 (fun i => (i + 2) % 256) 0 [4294967286]).delivered,
        ∀ i, i < 16 → 4294967288 ≤ e.1 + i → e.2 i = 0) := by
  intro h
  have h2 := h ((runProvider 4294967288 16 (fun i => (i + 2) % 256) 0
      [4294967286]).delivered.get ⟨1, by decide⟩) (List.get_mem _ 1 (by decide))
  exact absurd (h2 3 (by decide) (by decide)) (by decide)

/-- C6.  Preconditions of the stream provider: `fsDataProvider` fails with the
`Unsupported` error code whenever either callback is absent, and with the
`NotFound` error code whenever the path does not exist; in both cases the
result is an early error that carries no loop state, i.e. no file was opened
and no buffer was delivered to any callback. -/
theorem fsDataProvider_preconditions (hasOnLoop hasOnUpdate pathExists : Bool)
    (size W : Nat) (data : Nat → Nat) (o0 : Nat) (rs : List Nat) :
    ((hasOnLoop = false ∨ hasOnUpdate = false) →
      fsDataProvider hasOnLoop hasOnUpdate pathExists size W data o0 rs =
        ProviderOutcome.err FsErr.notsup) ∧
    (hasOnLoop = true → hasOnUpdate = true → pathExists = false →
      fsDataProvider hasOnLoop hasOnUpdate pathExists size W data o0 rs =
        ProviderOutcome.err FsErr.noent) := by
  constructor
  · intro h
    unfold fsDataProvider
    rw [if_pos h]
  · intro h1 h2 h3
    unfold fsDataProvider
    rw [if_neg (by simp [h1, h2]), if_pos h3]

/-- Witness for C6: a missing `onLoop` callback yields `Unsupported`; a
missing path (with both callbacks present) yields `NotFound`. -/
theorem fsDataProvider_preconditions_witness :
    fsDataProvider false true true 5 2 (fun i => i) 0 [] =
      ProviderOutcome.err FsErr.notsup ∧
    fsDataProvider true true false 5 2 (fun i => i) 0 [] =
      ProviderOutcome.err FsErr.noent :=
  ⟨(fsDataProvider_preconditions false true true 5 2 (fun i => i) 0 []).1 (Or.inl rfl),
    (fsDataProvider_preconditions true true false 5 2 (fun i => i) 0 []).2 rfl rfl rfl⟩

/-! ## Claims C5 and C7 -/

/-- C5 (code bug).  The source of `fsGetFileSize` ignores the return value of
`stat`; on a failed query the local `struct stat` is uninitialised, so the
function returns whatever value the stack held, not `0` as the specification
states: with residual stack value `12345`, the query of a nonexistent path
returns `12345`. -/
theorem fsGetFileSize_stat_failure_returns_junk :
    fsGetFileSize none 12345 = 12345 ∧ fsGetFileSize none 12345 ≠ 0 := by
  exact ⟨rfl, by decide⟩

/-- C7 (amended).  The progress-throttle state is the process-global
`static u32 prevProgress`, which survives across top-level operation calls; a
progress value is displayed exactly when it differs from the last displayed
value, whichever operation displayed it.  Consequently an operation's report
sequence is a function of the carried-over `prevProgress` (see the
counterexample for two identical calls that report differently). -/
theorem fsShowProgress_throttle (cancel : Nat → Bool) (pos total : Nat) (st : CopySt) :
    (fsShowProgress cancel pos total st).2.shown =
      st.shown ++ (if st.prevProgress ≠ pos * 100 % U64 / total % U32
        then [pos * 100 % U64 / total % U32] else []) ∧
    (fsShowProgress cancel pos total st).2.prevProgress =
      (if st.prevProgress ≠ pos * 100 % U64 / total % U32
        then pos * 100 % U64 / total % U32 else st.prevProgress) ∧
    (fsShowProgress cancel pos total st).2.calls = st.calls ++ [(pos, total)] := by
  unfold fsShowProgress
  by_cases h : st.prevProgress ≠ pos * 100 % U64 / total % U32
  · simp [if_pos h]
  · simp [if_neg h]

/-- Counterexample to C7 as stated: two runs of the very same copy operation
(one-byte file `"p"` to `"q"`, progress shown), differing only in the
`prevProgress` value left behind by earlier operation calls (`100` vs `0`),
display different report sequences (`[0, 100]` vs `[100]`): the throttle
state is global, not per-operation. -/
theorem fsShowProgress_per_operation_counterexample :
    (fsPathCopy (fun _ => false) 2 [112] [113] true
        ⟨[([112], FsEntry.file [7])], 100, 0, [], [], none⟩).2.shown ≠
      (fsPathCopy (fun _ => false) 2 [112] [113] true
        ⟨[([112], FsEntry.file [7])], 0, 0, [], [], none⟩).2.shown := by
  decide

/-! ## String lemmas for the self-containment guard -/

theorem strStarts_iff (pat : Str) : ∀ s : Str, strStarts s pat = true ↔ ∃ r, s = pat ++ r := by
  induction pat with
  | nil =>
    intro s
    constructor
    · intro _
      exact ⟨s, rfl⟩
    · intro _
      cases s <;> rfl
  | cons b bs ih =>
    intro s
    cases s with
    | nil =>
      simp only [strStarts]
      constructor
      · intro h; exact absurd h (by simp)
      · rintro ⟨r, h⟩; exact absurd h (by simp)
    | cons a s =>
      simp only [strStarts, Bool.and_eq_true, beq_iff_eq, ih s]
      constructor
      · rintro ⟨rfl, r, rfl⟩; exact ⟨r, rfl⟩
      · rintro ⟨r, h⟩
        rw [List.cons_append] at h
        injection h with h1 h2
        exact ⟨h1, r, h2⟩

theorem strContains_iff (pat : Str) : ∀ s : Str,
    strContains s pat = true ↔ ∃ l r, s = l ++ pat ++ r := by
  intro s
  induction s with
  | nil =>
    simp only [strContains, strStarts_iff]
    constructor
    · rintro ⟨r, h⟩; exact ⟨[], r, by simpa using h⟩
    · rintro ⟨l, r, h⟩
      rcases List.append_eq_nil.mp h.symm with ⟨h1, h2⟩
      rcases List.append_eq_nil.mp h1 with ⟨h3, h4⟩
      exact ⟨[], by simp [h4]⟩
  | cons a s ih =>
    simp only [strContains, Bool.or_eq_true, strStarts_iff, ih]
    constructor
    · rintro (⟨r, h⟩ | ⟨l, r, h⟩)
      · exact ⟨[], r, by simpa using h⟩
      · exact ⟨a :: l, r, by simp [h]⟩
    · rintro ⟨l, r, h⟩
      cases l with
      | nil => exact Or.inl ⟨r, by simpa using h⟩
      | cons x l =>
        rw [List.cons_append, List.cons_append] at h
        injection h with h1 h2
        exact Or.inr ⟨l, r, h2⟩

/-- Splitting an equal pair of appends at the right, when the right part of
the left-hand side is the shorter one. -/
theorem append_split_right {A B r c : Str} (h : A ++ r = B ++ c) (hlen : r.length ≤ c.length) :
    A = B ++ c.take (c.length - r.length) ∧ r = c.drop (c.length - r.length) := by
  have hc : c = c.take (c.length - r.length) ++ c.drop (c.length - r.length) :=
    (List.take_append_drop _ c).symm
  rw [hc, ← List.append_assoc] at h
  refine List.append_inj' h ?_
  simp only [List.length_drop]
  omega

/-- Splitting an equal pair of appends at the right, when the right part of
the right-hand side is the shorter one. -/
theorem append_split_left {A B r c : Str} (h : A ++ r = B ++ c) (hlen : c.length ≤ r.length) :
    A ++ r.take (r.length - c.length) = B ∧ r.drop (r.length - c.length) = c := by
  have hlen2 : A.length + r.length = B.length + c.length := by
    have := congrArg List.length h
    simpa using this
  have hr : r = r.take (r.length - c.length) ++ r.drop (r.length - c.length) :=
    (List.take_append_drop _ r).symm
  rw [hr, ← List.append_assoc] at h
  refine List.append_inj h ?_
  simp only [List.length_append, List.length_take]
  omega

/-- The straddle lemma: an occurrence of the child guard pattern
`src ++ "/" ++ c ++ "/"` inside the child destination `dest ++ "/" ++ c`
forces an occurrence of the parent pattern `src ++ "/"` inside `dest`, as
long as the child name `c` is nonempty and free of `'/'`. -/
theorem straddle (src dest c : Str) (hc : c ≠ []) (hcs : ∀ b ∈ c, b ≠ 47)
    (h : strContains (dest ++ [47] ++ c) ((src ++ [47] ++ c) ++ [47]) = true) :
    strContains dest (src ++ [47]) = true := by
  rw [strContains_iff] at h ⊢
  obtain ⟨l, r, h⟩ := h
  have h' : (l ++ ((src ++ [47] ++ c) ++ [47])) ++ r = (dest ++ [47]) ++ c := h.symm
  rcases Nat.le_total r.length c.length with hle | hle
  · obtain ⟨hA, _⟩ := append_split_right h' hle
    rcases Nat.eq_zero_or_pos (c.length - r.length) with hk | hk
    · rw [hk, List.take_zero, List.append_nil] at hA
      have hA2 : (l ++ (src ++ [47] ++ c)) ++ [47] = dest ++ [47] := by
        rw [← hA]; simp [List.append_assoc]
      have := (List.append_inj' hA2 rfl).1
      exact ⟨l, c, by rw [← this]; simp [List.append_assoc]⟩
    · exfalso
      have hne : c.take (c.length - r.length) ≠ [] := by
        intro hnil
        have := congrArg List.length hnil
        simp only [List.length_take, List.length_nil] at this
        have hclen : 0 < c.length := List.length_pos.mpr hc
        omega
      have hAl : (l ++ (src ++ [47] ++ c)) ++ [47] =
          (dest ++ [47]) ++ c.take (c.length - r.length) := by
        rw [← hA]; simp [List.append_assoc]
      have h47 : some 47 = (c.take (c.length - r.length)).getLast? := by
        rw [← List.getLast?_concat (l ++ (src ++ [47] ++ c)), hAl,
          List.getLast?_append_of_ne_nil _ hne]
      have hmem : (c.take (c.length - r.length)).getLast hne ∈ c :=
        List.take_subset _ _ (List.getLast_mem hne)
      rw [List.getLast?_eq_getLast _ hne] at h47
      exact hcs _ hmem (by injection h47 with h47; exact h47.symm)
  · obtain ⟨hA, _⟩ := append_split_left h' hle
    rcases List.eq_nil_or_concat (r.take (r.length - c.length)) with hr1 | ⟨r3, x, hr3⟩
    · rw [hr1, List.append_nil] at hA
      have hA2 : (l ++ (src ++ [47] ++ c)) ++ [47] = dest ++ [47] := by
        rw [← hA]; simp [List.append_assoc]
      have := (List.append_inj' hA2 rfl).1
      exact ⟨l, c, by rw [← this]; simp [List.append_assoc]⟩
    · rw [hr3] at hA
      have hA2 : ((l ++ ((src ++ [47] ++ c) ++ [47])) ++ r3) ++ [x] = dest ++ [47] := by
        rw [← hA]; simp [List.concat_eq_append, List.append_assoc]
      have := (List.append_inj' hA2 rfl).1
      refine ⟨l, (c ++ [47]) ++ r3, ?_⟩
      rw [← this]
      simp [List.append_assoc]

/-! ## State lemmas for `fsShowProgress`, `progressTick`, `copyFileLoop` -/

theorem fsShowProgress_props (cancel : Nat → Bool) (pos total : Nat) (st : CopySt) :
    (fsShowProgress cancel pos total st).2.fs = st.fs ∧
    (fsShowProgress cancel pos total st).2.errno = st.errno ∧
    (fsShowProgress cancel pos total st).2.calls = st.calls ++ [(pos, total)] := by
  unfold fsShowProgress
  by_cases h : st.prevProgress ≠ pos * 100 % U64 / total % U32 <;> simp [h]

theorem progressTick_props (cancel : Nat → Bool) (sp : Bool) (pos total : Nat) (st : CopySt) :
    (progressTick cancel sp pos total st).2.fs = st.fs ∧
    (progressTick cancel sp pos total st).2.errno = st.errno ∧
    (progressTick cancel sp pos total st).2.calls =
      st.calls ++ (if sp then [(pos, total)] else []) := by
  unfold progressTick
  by_cases hsp : sp
  · rw [if_pos hsp, if_pos hsp]
    exact fsShowProgress_props cancel pos total st
  · rw [if_neg hsp, if_neg hsp]
    exact ⟨rfl, rfl, by simp⟩

theorem copyFileLoop_props (cancel : Nat → Bool) (sp : Bool) (total : Nat) :
    ∀ (reqs : List Nat) (pos : Nat) (st : CopySt),
      (copyFileLoop cancel sp total reqs pos st).2.2.fs = st.fs ∧
      ((copyFileLoop cancel sp total reqs pos st).2.2.errno = st.errno ∨
        (copyFileLoop cancel sp total reqs pos st).2.2.errno = some FsErr.canceled)
  | [], pos, st => ⟨rfl, Or.inl rfl⟩
  | r :: rest, pos, st => by
    unfold copyFileLoop
    by_cases hsp : sp
    · rw [if_pos hsp]
      rcases hfs : fsShowProgress cancel (pos + r) total st with ⟨ok, st2⟩
      have hp := fsShowProgress_props cancel (pos + r) total st
      rw [hfs] at hp
      cases ok
      · exact ⟨hp.1, Or.inr rfl⟩
      · have ih := copyFileLoop_props cancel sp total rest (pos + r) st2
        refine ⟨by rw [ih.1, hp.1], ?_⟩
        rcases ih.2 with h | h
        · exact Or.inl (by rw [h, hp.2.1])
        · exact Or.inr h
    · rw [if_neg hsp]
      exact copyFileLoop_props cancel sp total rest (pos + r) st

/-! ## Well-formedness lemmas -/

theorem lookupFS_mem : ∀ (fs : FS) (p : Str) (e : FsEntry),
    lookupFS fs p = some e → ∃ q, (q, e) ∈ fs
  | [], p, e, h => by simp [lookupFS] at h
  | (q, e') :: fs, p, e, h => by
    unfold lookupFS at h
    by_cases hq : q = p
    · rw [if_pos hq] at h
      injection h with h
      exact ⟨q, by simp [h]⟩
    · rw [if_neg hq] at h
      obtain ⟨q2, hm⟩ := lookupFS_mem fs p e h
      exact ⟨q2, List.mem_cons_of_mem _ hm⟩

theorem fsGetDirectoryContents_nameOK (fs : FS) (p : Str) (hwf : wfNames fs) :
    ∀ n ∈ fsGetDirectoryContents fs p, nameOK n = true := by
  intro n hn
  unfold fsGetDirectoryContents at hn
  rcases hl : lookupFS fs (stripSlash (dirWithSlash p)) with _ | e
  · rw [hl] at hn
    simp at hn
  · rw [hl] at hn
    cases e with
    | dir ns =>
      obtain ⟨q, hm⟩ := lookupFS_mem _ _ _ hl
      have hok := hwf (q, FsEntry.dir ns) hm
      simp only [entryNamesOK] at hok
      exact List.all_eq_true.mp hok n hn
    | file c => simp at hn

theorem nameOK_spec (n : Str) (h : nameOK n = true) : n ≠ [] ∧ ∀ b ∈ n, b ≠ 47 := by
  unfold nameOK at h
  simp only [Bool.and_eq_true] at h
  constructor
  · intro hnil
    subst hnil
    simp at h
  · intro b hb
    have h2 := h.1.1.2
    rw [List.all_eq_true] at h2
    have h3 := h2 b hb
    simp at h3
    exact h3

theorem wfNames_insert (p : Str) (e : FsEntry) (fs : FS) (hwf : wfNames fs)
    (he : entryNamesOK e = true) : wfNames (insertFS p e fs) := by
  intro x hx
  rcases List.mem_cons.mp hx with h | hx
  · rw [h]
    exact he
  · exact hwf x hx

theorem dirWithSlash_of_no_slash (p : Str) (h : p.getLast? ≠ some 47) :
    dirWithSlash p = p ++ [47] := by
  unfold dirWithSlash
  exact if_neg (fun hh => h hh.2)

theorem append_name_getLast (p n : Str) (hn : n ≠ []) (h47 : ∀ b ∈ n, b ≠ 47) :
    (p ++ [47] ++ n).getLast? ≠ some 47 := by
  rw [List.getLast?_append_of_ne_nil _ hn, List.getLast?_eq_getLast _ hn]
  intro h
  exact h47 _ (List.getLast_mem hn) (Option.some.inj h)

theorem mkdirFS_wfNames (fs : FS) (p : Str) (fs2 : FS) (h : mkdirFS fs p = some fs2)
    (hwf : wfNames fs) : wfNames fs2 := by
  unfold mkdirFS at h
  by_cases hex : fsExists fs p
  · rw [if_pos hex] at h
    exact absurd h (by simp)
  · rw [if_neg hex] at h
    injection h with h
    rw [← h]
    exact wfNames_insert _ _ _ hwf rfl

theorem copyChildren_no_notsup (go : Str → Str → Bool → CopySt → Bool × CopySt)
    (srcSlash dest : Str) (sp : Bool) :
    ∀ (ns : List Str) (st : CopySt),
      (∀ n ∈ ns, ∀ st2 : CopySt, wfNames st2.fs → st2.errno ≠ some FsErr.notsup →
        wfNames (go (srcSlash ++ n) (dest ++ [47] ++ n) sp st2).2.fs ∧
        (go (srcSlash ++ n) (dest ++ [47] ++ n) sp st2).2.errno ≠ some FsErr.notsup) →
      wfNames st.fs → st.errno ≠ some FsErr.notsup →
      wfNames (copyChildren go srcSlash dest sp ns st).2.fs ∧
      (copyChildren go srcSlash dest sp ns st).2.errno ≠ some FsErr.notsup := by
  intro ns
  induction ns with
  | nil =>
    intro st _ h1 h2
    exact ⟨h1, h2⟩
  | cons n ns ih =>
    intro st hgo h1 h2
    unfold copyChildren
    rcases hg : go (srcSlash ++ n) (dest ++ [47] ++ n) sp st with ⟨ok, st2⟩
    have hn := hgo n (List.mem_cons_self n ns) st h1 h2
    rw [hg] at hn
    cases ok
    · exact hn
    · exact ih st2 (fun m hm => hgo m (List.mem_cons_of_mem n hm)) hn.1 hn.2

/-- No execution of `fsPathCopy` sets `errno = ENOTSUP` when `dest` does not
contain `path + "/"` as a substring: the top-level guard does not fire, and by
the straddle lemma no recursive child guard can fire either. -/
theorem fsPathCopy_no_notsup (cancel : Nat → Bool) :
    ∀ (fuel : Nat) (path dest : Str) (sp : Bool) (st : CopySt),
      wfNames st.fs → st.errno ≠ some FsErr.notsup → path.getLast? ≠ some 47 →
      strContains dest (path ++ [47]) = false →
      wfNames (fsPathCopy cancel fuel path dest sp st).2.fs ∧
      (fsPathCopy cancel fuel path dest sp st).2.errno ≠ some FsErr.notsup
  | 0, path, dest, sp, st => fun h1 h2 _ _ => ⟨h1, h2⟩
  | fuel + 1, path, dest, sp, st => by
    intro hwf herr hsl hcont
    unfold fsPathCopy
    by_cases hex : fsExists st.fs dest
    · rw [if_pos hex]
      exact ⟨hwf, by simp⟩
    · rw [if_neg hex]
      rcases htick : progressTick cancel sp 0 1 st with ⟨ok, st1⟩
      have hpt := progressTick_props cancel sp 0 1 st
      rw [htick] at hpt
      have hwf1 : wfNames st1.fs := by rw [hpt.1]; exact hwf
      have herr1 : st1.errno ≠ some FsErr.notsup := by rw [hpt.2.1]; exact herr
      cases ok
      · exact ⟨hwf1, by simp⟩
      · dsimp only
        by_cases hdir : fsIsDirectory st1.fs path = true
        · rw [if_pos hdir, if_neg (by rw [hcont]; exact Bool.false_ne_true)]
          rcases hmk : mkdirFS st1.fs dest with _ | fs2
          · exact ⟨hwf1, herr1⟩
          · have hwf2 : wfNames fs2 := mkdirFS_wfNames st1.fs dest fs2 hmk hwf1
            dsimp only
            rcases htick2 : progressTick cancel sp 1 2 { st1 with fs := fs2 } with ⟨ok2, st2⟩
            have hpt2 := progressTick_props cancel sp 1 2 { st1 with fs := fs2 }
            rw [htick2] at hpt2
            have hwf3 : wfNames st2.fs := by rw [hpt2.1]; exact hwf2
            have herr3 : st2.errno ≠ some FsErr.notsup := by rw [hpt2.2.1]; exact herr1
            cases ok2
            · exact ⟨hwf3, by simp⟩
            · dsimp only
              rw [dirWithSlash_of_no_slash path hsl]
              refine copyChildren_no_notsup (fsPathCopy cancel fuel) (path ++ [47]) dest sp
                (fsGetDirectoryContents st2.fs path) st2 ?_ hwf3 herr3
              intro n hn st4 hwf4 herr4
              have hnok := nameOK_spec n (fsGetDirectoryContents_nameOK st2.fs path hwf3 n hn)
              have hsl2 : (path ++ [47] ++ n).getLast? ≠ some 47 :=
                append_name_getLast path n hnok.1 hnok.2
              have hcont2 : strContains (dest ++ [47] ++ n) ((path ++ [47] ++ n) ++ [47])
                  = false := by
                rcases hb : strContains (dest ++ [47] ++ n) ((path ++ [47] ++ n) ++ [47]) with _ | _
                · rfl
                · exfalso
                  have := straddle path dest n hnok.1 hnok.2 (by
                    have hshape : (path ++ [47] ++ n) ++ [47] = (path ++ [47] ++ n) ++ [47] := rfl
                    exact hb)
                  rw [hcont] at this
                  exact Bool.false_ne_true this
              exact fsPathCopy_no_notsup cancel fuel (path ++ [47] ++ n) (dest ++ [47] ++ n)
                sp st4 hwf4 herr4 hsl2 hcont2
        · rw [if_neg hdir]
          rcases hlk : lookupFS st1.fs (stripSlash path) with _ | e
          · exact ⟨wfNames_insert _ _ _ hwf1 rfl, herr1⟩
          · cases e with
            | dir ns =>
              exfalso
              apply hdir
              unfold fsIsDirectory
              rw [hlk]
            | file c =>
              have hcl := copyFileLoop_props cancel sp (fsGetFileSizeOn st1.fs path)
                (chunkSizes (min (fsGetFileSizeOn st1.fs path) CTRX_BUFSIZ) c.length) 0 st1
              constructor
              · refine wfNames_insert _ _ _ ?_ rfl
                rw [hcl.1]
                exact hwf1
              · rcases hcl.2 with h | h
                · rw [h]
                  exact herr1
                · rw [h]
                  simp

/-- C4 (amended).  Self-containment guard of `fsPathCopy` (run without
progress reporting, so that cancellation cannot preempt): for a directory
`path` and a not-yet-existing `dest`, the copy fails with the `Unsupported`
error code exactly when `path ++ "/"` occurs as a substring of `dest`
(anywhere, not merely as a prefix — the source uses `dest.find(path + "/")`).
On that failure the returned state is the input state with only `errno`
changed: no directory is created and no child is copied.  Conversely, when
`path ++ "/"` does not occur in `dest` (and `path` has no trailing slash and
the filesystem's child names are well formed), no execution path of the copy
— including all recursive child copies — sets `errno` to `Unsupported`. -/
theorem fsPathCopy_self_containment (cancel : Nat → Bool) (fuel : Nat) (path dest : Str)
    (st : CopySt) :
    (fsExists st.fs dest = false → fsIsDirectory st.fs path = true →
      strContains dest (path ++ [47]) = true →
      fsPathCopy cancel (fuel + 1) path dest false st =
        (false, { st with errno := some FsErr.notsup })) ∧
    (wfNames st.fs → st.errno ≠ some FsErr.notsup → path.getLast? ≠ some 47 →
      strContains dest (path ++ [47]) = false →
      (fsPathCopy cancel fuel path dest false st).2.errno ≠ some FsErr.notsup) := by
  constructor
  · intro hex hdir hcont
    unfold fsPathCopy
    rw [if_neg (by rw [hex]; exact Bool.false_ne_true)]
    have htick : progressTick cancel false 0 1 st = (true, st) := rfl
    rw [htick]
    dsimp only
    rw [if_pos hdir, if_pos hcont]
  · intro h1 h2 h3 h4
    exact (fsPathCopy_no_notsup cancel fuel path dest false st h1 h2 h3 h4).2

/-- Witness for C4: copying directory `"b"` into `"zq/b/c"` (which contains
`"b/"`) fails with `Unsupported` and leaves the state untouched apart from
`errno`; copying directory `"b"` (one file child) into `"c"` never produces
`Unsupported`. -/
theorem fsPathCopy_self_containment_witness :
    fsPathCopy (fun _ => false) 5 [98] [122, 113, 47, 98, 47, 99] false
        ⟨[([98], FsEntry.dir []), ([122, 113], FsEntry.dir [])], 7, 0, [], [], none⟩ =
      (false, ⟨[([98], FsEntry.dir []), ([122, 113], FsEntry.dir [])], 7, 0, [], [],
        some FsErr.notsup⟩) ∧
    (fsPathCopy (fun _ => false) 5 [98] [99] false
        ⟨[([98], FsEntry.dir [[97]]), ([98, 47, 97], FsEntry.file [1, 2])], 7, 0, [], [],
          none⟩).2.errno ≠ some FsErr.notsup :=
  ⟨(fsPathCopy_self_containment (fun _ => false) 4 [98] [122, 113, 47, 98, 47, 99]
      ⟨[([98], FsEntry.dir []), ([122, 113], FsEntry.dir [])], 7, 0, [], [], none⟩).1
      (by decide) (by decide) (by decide),
    (fsPathCopy_self_containment (fun _ => false) 5 [98] [99]
      ⟨[([98], FsEntry.dir [[97]]), ([98, 47, 97], FsEntry.file [1, 2])], 7, 0, [], [],
        none⟩).2 (by unfold wfNames; decide) (by decide) (by decide) (by decide)⟩

/-- Counterexample to C4 as stated: copying the directory `"b"` to the
nonexistent destination `"ab/c"` fails with `Unsupported` — yet `"b/"` is
not a prefix of `"ab/c"` (it occurs only in the interior), so "fails with
Unsupported exactly when dest contains src + '/' as a prefix" is false; the
source checks `dest.find(path + "/") != npos`, a substring search. -/
theorem fsPathCopy_self_containment_counterexample :
    (fsPathCopy (fun _ => false) 5 [98] [97, 98, 47, 99] false
        ⟨[([98], FsEntry.dir []), ([97], FsEntry.dir [])], 0, 0, [], [], none⟩).2.errno =
      some FsErr.notsup ∧
    (fsPathCopy (fun _ => false) 5 [98] [97, 98, 47, 99] false
        ⟨[([98], FsEntry.dir []), ([97], FsEntry.dir [])], 0, 0, [], [], none⟩).1 = false ∧
    strStarts [97, 98, 47, 99] ([98] ++ [47]) = false := by
  decide

/-! ## Lemmas for the positive-divisor property of progress calls -/

theorem entrySizeOK_file (c : List Nat) (h : c.length < U32) :
    entrySizeOK (FsEntry.file c) = true := by
  unfold entrySizeOK
  exact decide_eq_true h

theorem wfSizes_insert (p : Str) (e : FsEntry) (fs : FS) (hwf : wfSizes fs)
    (he : entrySizeOK e = true) : wfSizes (insertFS p e fs) := by
  intro x hx
  rcases List.mem_cons.mp hx with h | hx
  · rw [h]
    exact he
  · exact hwf x hx

theorem mkdirFS_wfSizes (fs : FS) (p : Str) (fs2 : FS) (h : mkdirFS fs p = some fs2)
    (hwf : wfSizes fs) : wfSizes fs2 := by
  unfold mkdirFS at h
  by_cases hex : fsExists fs p
  · rw [if_pos hex] at h
    exact absurd h (by simp)
  · rw [if_neg hex] at h
    injection h with h
    rw [← h]
    exact wfSizes_insert _ _ _ hwf rfl

theorem lookupFS_file_size (fs : FS) (p : Str) (c : List Nat)
    (h : lookupFS fs p = some (FsEntry.file c)) (hwf : wfSizes fs) : c.length < U32 := by
  obtain ⟨q, hm⟩ := lookupFS_mem fs p _ h
  have := hwf (q, FsEntry.file c) hm
  unfold entrySizeOK at this
  exact of_decide_eq_true this

theorem copyFileLoop_callsPos (cancel : Nat → Bool) (sp : Bool) (total : Nat)
    (htot : 0 < total) :
    ∀ (reqs : List Nat) (pos : Nat) (st : CopySt), callsPos st →
      callsPos (copyFileLoop cancel sp total reqs pos st).2.2
  | [], _, _ => fun h => h
  | r :: rest, pos, st => by
    intro h
    unfold copyFileLoop
    by_cases hsp : sp
    · rw [if_pos hsp]
      rcases hfs : fsShowProgress cancel (pos + r) total st with ⟨ok, st2⟩
      have hp := fsShowProgress_props cancel (pos + r) total st
      rw [hfs] at hp
      have h2 : callsPos st2 := by
        intro c hc
        rw [hp.2.2] at hc
        rcases List.mem_append.mp hc with hc | hc
        · exact h c hc
        · rcases List.mem_singleton.mp hc with rfl
          exact htot
      cases ok
      · exact h2
      · exact copyFileLoop_callsPos cancel sp total htot rest (pos + r) st2 h2
    · rw [if_neg hsp]
      exact copyFileLoop_callsPos cancel sp total htot rest (pos + r) st h

theorem copyChildren_callsPos (go : Str → Str → Bool → CopySt → Bool × CopySt)
    (srcSlash dest : Str) (sp : Bool) :
    ∀ (ns : List Str) (st : CopySt),
      (∀ n ∈ ns, ∀ st2 : CopySt, wfSizes st2.fs → callsPos st2 →
        wfSizes (go (srcSlash ++ n) (dest ++ [47] ++ n) sp st2).2.fs ∧
        callsPos (go (srcSlash ++ n) (dest ++ [47] ++ n) sp st2).2) →
      wfSizes st.fs → callsPos st →
      wfSizes (copyChildren go srcSlash dest sp ns st).2.fs ∧
      callsPos (copyChildren go srcSlash dest sp ns st).2 := by
  intro ns
  induction ns with
  | nil =>
    intro st _ h1 h2
    exact ⟨h1, h2⟩
  | cons n ns ih =>
    intro st hgo h1 h2
    unfold copyChildren
    rcases hg : go (srcSlash ++ n) (dest ++ [47] ++ n) sp st with ⟨ok, st2⟩
    have hn := hgo n (List.mem_cons_self n ns) st h1 h2
    rw [hg] at hn
    cases ok
    · exact hn
    · exact ih st2 (fun m hm => hgo m (List.mem_cons_of_mem n hm)) hn.1 hn.2

theorem fsPathCopy_callsPos (cancel : Nat → Bool) :
    ∀ (fuel : Nat) (path dest : Str) (sp : Bool) (st : CopySt),
      wfSizes st.fs → callsPos st →
      wfSizes (fsPathCopy cancel fuel path dest sp st).2.fs ∧
      callsPos (fsPathCopy cancel fuel path dest sp st).2
  | 0, path, dest, sp, st => fun h1 h2 => ⟨h1, h2⟩
  | fuel + 1, path, dest, sp, st => by
    intro hwf hcp
    unfold fsPathCopy
    by_cases hex : fsExists st.fs dest
    · rw [if_pos hex]
      exact ⟨hwf, hcp⟩
    · rw [if_neg hex]
      rcases htick : progressTick cancel sp 0 1 st with ⟨ok, st1⟩
      have hpt := progressTick_props cancel sp 0 1 st
      rw [htick] at hpt
      have hwf1 : wfSizes st1.fs := by rw [hpt.1]; exact hwf
      have hcp1 : callsPos st1 := by
        intro c hc
        rw [hpt.2.2] at hc
        rcases List.mem_append.mp hc with hc | hc
        · exact hcp c hc
        · rcases List.mem_singleton.mp ((by split at hc <;> simpa using hc :
            c ∈ ([(0, 1)] : List (Nat × Nat)))) with rfl
          exact Nat.one_pos
      cases ok
      · exact ⟨hwf1, hcp1⟩
      · dsimp only
        by_cases hdir : fsIsDirectory st1.fs path = true
        · rw [if_pos hdir]
          by_cases hcont : strContains dest (path ++ [47]) = true
          · rw [if_pos hcont]
            exact ⟨hwf1, hcp1⟩
          · rw [if_neg hcont]
            rcases hmk : mkdirFS st1.fs dest with _ | fs2
            · exact ⟨hwf1, hcp1⟩
            · have hwf2 : wfSizes fs2 := mkdirFS_wfSizes st1.fs dest fs2 hmk hwf1
              dsimp only
              rcases htick2 : progressTick cancel sp 1 2 { st1 with fs := fs2 } with ⟨ok2, st2⟩
              have hpt2 := progressTick_props cancel sp 1 2 { st1 with fs := fs2 }
              rw [htick2] at hpt2
              have hwf3 : wfSizes st2.fs := by rw [hpt2.1]; exact hwf2
              have hcp3 : callsPos st2 := by
                intro c hc
                rw [hpt2.2.2] at hc
                rcases List.mem_append.mp hc with hc | hc
                · exact hcp1 c hc
                · rcases List.mem_singleton.mp ((by split at hc <;> simpa using hc :
                    c ∈ ([(1, 2)] : List (Nat × Nat)))) with rfl
                  exact Nat.two_pos
              cases ok2
              · exact ⟨hwf3, hcp3⟩
              · dsimp only
                refine copyChildren_callsPos (fsPathCopy cancel fuel) (dirWithSlash path)
                  dest sp (fsGetDirectoryContents st2.fs path) st2 ?_ hwf3 hcp3
                intro n _ st4 hwf4 hcp4
                exact fsPathCopy_callsPos cancel fuel (dirWithSlash path ++ n)
                  (dest ++ [47] ++ n) sp st4 hwf4 hcp4
        · rw [if_neg hdir]
          rcases hlk : lookupFS st1.fs (stripSlash path) with _ | e
          · exact ⟨wfSizes_insert _ _ _ hwf1 (entrySizeOK_file [] (by decide)), hcp1⟩
          · cases e with
            | dir ns =>
              exfalso
              apply hdir
              unfold fsIsDirectory
              rw [hlk]
            | file c =>
              dsimp only
              have hclen : c.length < U32 := lookupFS_file_size st1.fs _ c hlk hwf1
              have htot : fsGetFileSizeOn st1.fs path = c.length := by
                unfold fsGetFileSizeOn
                rw [hlk]
                exact Nat.mod_eq_of_lt hclen
              have hfl := copyFileLoop_props cancel sp (fsGetFileSizeOn st1.fs path)
                (chunkSizes (min (fsGetFileSizeOn st1.fs path) CTRX_BUFSIZ) c.length) 0 st1
              constructor
              · refine wfSizes_insert _ _ _ ?_ (entrySizeOK_file _ ?_)
                · rw [hfl.1]
                  exact hwf1
                · calc (c.take _).length ≤ c.length := by
                        rw [List.length_take]; omega
                    _ < U32 := hclen
              · rcases Nat.eq_zero_or_pos c.length with hlen | hlen
                · have : chunkSizes (min (fsGetFileSizeOn st1.fs path) CTRX_BUFSIZ) c.length
                      = [] := by
                    rw [hlen]
                    rfl
                  rw [this]
                  exact hcp1
                · exact copyFileLoop_callsPos cancel sp _ (by omega) _ 0 st1 hcp1

theorem dummyLoop_callsPos (cancel : Nat → Bool) (sp : Bool) (size : Nat)
    (buffer : List Nat) (w : Nat → Nat) (hsz : sp = true → 0 < size) :
    ∀ (reqs : List Nat) (i pos : Nat) (written : List Nat) (calls : List (Nat × Nat)),
      (∀ c ∈ calls, 0 < c.2) →
      ∀ c ∈ (dummyLoop cancel sp size buffer w reqs i pos written calls).2.2, 0 < c.2
  | [], _, _, _, _ => fun h => h
  | r :: rest, i, pos, written, calls => by
    intro h
    unfold dummyLoop
    by_cases hsp : sp
    · rw [if_pos hsp]
      have hpos : ∀ c ∈ calls ++ [(pos + min (w i) r, size)], 0 < c.2 := by
        intro c hc
        rcases List.mem_append.mp hc with hc | hc
        · exact h c hc
        · rcases List.mem_singleton.mp hc with rfl
          exact hsz hsp
      by_cases hcan : cancel i
      · rw [if_pos hcan]
        exact hpos
      · rw [if_neg hcan]
        exact dummyLoop_callsPos cancel sp size buffer w hsz rest (i + 1) _ _ _ hpos
    · rw [if_neg hsp]
      exact dummyLoop_callsPos cancel sp size buffer w hsz rest (i + 1) _ _ _ h

/-- C10.  Divide-by-zero safety of progress reporting: every `(pos, total)`
argument pair ever passed to `fsShowProgress` — which computes
`pos * 100 / total` — by `fsPathCopy` or `fsCreateDummyFile` has a strictly
positive `total`: the pre-start and directory ticks use totals 1 and 2, the
per-chunk ticks of a copy use the source file's size, which is positive
whenever a chunk was read, and the per-chunk ticks of dummy-file generation
use `size`, which is at least `CTRX_BUFSIZ` whenever progress is enabled.
For the copy this assumes the modelled filesystem has `u32`-sized files
(`wfSizes`), matching the platform's storage limits. -/
theorem fsShowProgress_positive_total (cancel : Nat → Bool) :
    (∀ (fuel : Nat) (path dest : Str) (sp : Bool) (st : CopySt),
      wfSizes st.fs → callsPos st →
      callsPos (fsPathCopy cancel fuel path dest sp st).2) ∧
    (∀ (pathExists : Bool) (size content : Nat) (sp0 : Bool) (w : Nat → Nat),
      ∀ c ∈ (fsCreateDummyFile cancel pathExists size content sp0 w).calls, 0 < c.2) := by
  constructor
  · intro fuel path dest sp st h1 h2
    exact (fsPathCopy_callsPos cancel fuel path dest sp st h1 h2).2
  · intro pathExists size content sp0 w
    unfold fsCreateDummyFile
    by_cases hex : pathExists
    · rw [if_pos hex]
      intro c hc
      simp at hc
    · rw [if_neg hex]
      dsimp only
      refine dummyLoop_callsPos cancel _ size _ w ?_ _ 0 0 [] _ ?_
      · intro hsp
        have h2 : ¬ size < CTRX_BUFSIZ := by
          rcases Bool.and_eq_true _ _ |>.mp hsp with ⟨_, hb⟩
          simpa using hb
        unfold CTRX_BUFSIZ at h2
        omega
      · intro c hc
        split at hc
        · rcases List.mem_singleton.mp hc with rfl
          exact Nat.one_pos
        · simp at hc

/-- Witness for C10: a copy of a one-byte file with progress enabled (initial
tick and one chunk tick), and a dummy-file generation of exactly
`CTRX_BUFSIZ` bytes with progress enabled. -/
theorem fsShowProgress_positive_total_witness :
    callsPos (fsPathCopy (fun _ => false) 3 [112] [113] true
      ⟨[([112], FsEntry.file [9])], 0, 0, [], [], none⟩).2 ∧
    (∀ c ∈ (fsCreateDummyFile (fun _ => false) false CTRX_BUFSIZ 65 true
      (fun _ => CTRX_BUFSIZ)).calls, 0 < c.2) :=
  ⟨(fsShowProgress_positive_total (fun _ => false)).1 3 [112] [113] true
      ⟨[([112], FsEntry.file [9])], 0, 0, [], [], none⟩
      (by unfold wfSizes; decide) (by unfold callsPos; decide),
    (fsShowProgress_positive_total (fun _ => false)).2 false CTRX_BUFSIZ 65 true
      (fun _ => CTRX_BUFSIZ)⟩

/-! ## Lemmas for dummy-file generation -/

theorem progFillList_length : ∀ (b inc n : Nat), (progFillList b inc n).length = n
  | _, _, 0 => rfl
  | b, inc, n + 1 => by
    simp [progFillList, progFillList_length ((b + inc) % 256) inc n]

theorem dummyBuffer_length (content bufsiz : Nat) :
    (dummyBuffer content bufsiz).length = bufsiz := by
  unfold dummyBuffer
  split
  · exact progFillList_length _ _ _
  · exact List.length_replicate _ _

theorem chunkSizesF_le : ∀ (fuel b n : Nat), ∀ x ∈ chunkSizesF fuel b n, x ≤ b
  | 0, _, _ => by
    intro x hx
    simp [chunkSizesF] at hx
  | fuel + 1, b, n => by
    intro x hx
    unfold chunkSizesF at hx
    by_cases h0 : n = 0
    · rw [if_pos h0] at hx
      simp at hx
    · rw [if_neg h0] at hx
      by_cases h1 : n < b
      · rw [if_pos h1] at hx
        rcases List.mem_singleton.mp hx with rfl
        omega
      · rw [if_neg h1] at hx
        rcases List.mem_cons.mp hx with h | hx
        · omega
        · exact chunkSizesF_le fuel b (n - b) x hx

theorem dummyLoop_length (cancel : Nat → Bool) (sp : Bool) (size : Nat) (buffer : List Nat)
    (w : Nat → Nat) :
    ∀ (reqs : List Nat) (i pos : Nat) (written : List Nat) (calls : List (Nat × Nat)),
      (∀ r ∈ reqs, r ≤ buffer.length) →
      (dummyLoop cancel sp size buffer w reqs i pos written calls).2.1.length + pos =
        (dummyLoop cancel sp size buffer w reqs i pos written calls).1 + written.length
  | [], i, pos, written, calls => by
    intro _
    unfold dummyLoop
    dsimp only
    omega
  | r :: rest, i, pos, written, calls => by
    intro hreq
    unfold dummyLoop
    have hr := hreq r (List.mem_cons_self r rest)
    have hwr : (buffer.take (min (w i) r)).length = min (w i) r := by
      rw [List.length_take]
      omega
    by_cases hsp : sp
    · rw [if_pos hsp]
      by_cases hcan : cancel i
      · rw [if_pos hcan]
        simp only [List.length_append, hwr]
        omega
      · rw [if_neg hcan]
        have ih := dummyLoop_length cancel sp size buffer w rest (i + 1) (pos + min (w i) r)
          (written ++ buffer.take (min (w i) r)) (calls ++ [(pos + min (w i) r, size)])
          (fun x hx => hreq x (List.mem_cons_of_mem r hx))
        rw [List.length_append, hwr] at ih
        omega
    · rw [if_neg hsp]
      have ih := dummyLoop_length cancel sp size buffer w rest (i + 1) (pos + min (w i) r)
        (written ++ buffer.take (min (w i) r)) calls
        (fun x hx => hreq x (List.mem_cons_of_mem r hx))
      rw [List.length_append, hwr] at ih
      omega

/-- C9.  Fixed-content file generation: with size 10 and the constant-byte
pattern `0x41`, `fsCreateDummyFile` writes ten bytes of `0x41` and succeeds;
with size 5 and the progression pattern `0x0100` (start `0x00`, step `0x01`)
it writes exactly the bytes `[0, 1, 2, 3, 4]` (values increase by the step,
wrapping modulo 256); and in general the operation returns success only if
the total number of bytes written equals `size`. -/
theorem fsCreateDummyFile_fixed_content :
    (fsCreateDummyFile (fun _ => false) false 10 0x41 false (fun _ => CTRX_BUFSIZ)).ret
      = true ∧
    (fsCreateDummyFile (fun _ => false) false 10 0x41 false (fun _ => CTRX_BUFSIZ)).written
      = List.replicate 10 0x41 ∧
    (fsCreateDummyFile (fun _ => false) false 5 0x0100 false (fun _ => CTRX_BUFSIZ)).ret
      = true ∧
    (fsCreateDummyFile (fun _ => false) false 5 0x0100 false (fun _ => CTRX_BUFSIZ)).written
      = [0, 1, 2, 3, 4] ∧
    (∀ (cancel : Nat → Bool) (pathExists : Bool) (size content : Nat) (sp0 : Bool)
      (w : Nat → Nat),
      (fsCreateDummyFile cancel pathExists size content sp0 w).ret = true →
      (fsCreateDummyFile cancel pathExists size content sp0 w).written.length = size) := by
  refine ⟨by decide, by decide, by decide, by decide, ?_⟩
  intro cancel pathExists size content sp0 w hret
  unfold fsCreateDummyFile at hret ⊢
  by_cases hex : pathExists
  · rw [if_pos hex] at hret
    exact absurd hret (by simp)
  · rw [if_neg hex] at hret ⊢
    dsimp only at hret ⊢
    have hlen := dummyLoop_length cancel (sp0 && !(decide (size < CTRX_BUFSIZ)))
      size (dummyBuffer content (min size CTRX_BUFSIZ)) w
      (chunkSizes (min size CTRX_BUFSIZ) size) 0 0 []
      (if sp0 && !(decide (size < CTRX_BUFSIZ)) then [(0, 1)] else []) ?_
    · have hpos := eq_of_beq hret
      simp only [List.length_nil, Nat.add_zero] at hlen
      rw [hlen, hpos]
    · intro x hx
      rw [dummyBuffer_length]
      exact chunkSizesF_le size (min size CTRX_BUFSIZ) size x hx

/-- Witness for C9's general success condition: generating a 3-byte file with
partial-write capacity 64 per chunk succeeds and indeed wrote 3 bytes. -/
theorem fsCreateDummyFile_fixed_content_witness :
    (fsCreateDummyFile (fun _ => false) false 3 7 false (fun _ => 64)).written.length = 3 :=
  fsCreateDummyFile_fixed_content.2.2.2.2 (fun _ => false) false 3 7 false (fun _ => 64)
    (by decide)

/-! ## Lemmas for the directory-listing order -/

theorem caseCompare_swap : ∀ s t : Str, caseCompare t s = (caseCompare s t).swap
  | [], [] => rfl
  | [], _ :: _ => rfl
  | _ :: _, [] => rfl
  | a :: as, b :: bs => by
    unfold caseCompare
    by_cases h : lowerByte a = lowerByte b
    · rw [if_pos h, if_pos h.symm]
      exact caseCompare_swap as bs
    · rw [if_neg h, if_neg (fun hh => h hh.symm)]
      by_cases h2 : lowerByte a < lowerByte b
      · rw [if_pos h2, if_neg (by omega)]
        rfl
      · rw [if_neg h2, if_pos (by omega)]
        rfl

theorem caseCompare_notLT_lower : ∀ x y : Str, ∀ a b : Nat,
    caseCompare (b :: y) (a :: x) ≠ Ordering.lt → lowerByte a ≤ lowerByte b := by
  intro x y a b h
  unfold caseCompare at h
  by_cases he : lowerByte b = lowerByte a
  · omega
  · rw [if_neg he] at h
    by_cases hl : lowerByte b < lowerByte a
    · rw [if_pos hl] at h
      exact absurd rfl h
    · omega

theorem caseCompare_notLT_trans : ∀ x y z : Str,
    caseCompare y x ≠ Ordering.lt → caseCompare z y ≠ Ordering.lt →
    caseCompare z x ≠ Ordering.lt
  | [], _, [] => fun _ _ => by simp [caseCompare]
  | [], _, c :: cs => fun _ _ => by simp [caseCompare]
  | a :: as, [], _ => fun h1 _ => absurd rfl h1
  | a :: as, b :: bs, [] => fun _ h2 => absurd rfl h2
  | a :: as, b :: bs, c :: cs => fun h1 h2 => by
    have hba := caseCompare_notLT_lower as bs a b h1
    have hcb := caseCompare_notLT_lower bs cs b c h2
    intro hcon
    unfold caseCompare at hcon
    by_cases hca : lowerByte c = lowerByte a
    · rw [if_pos hca] at hcon
      have hba2 : lowerByte b = lowerByte a := by omega
      have hcb2 : lowerByte c = lowerByte b := by omega
      have h1' : caseCompare bs as ≠ Ordering.lt := by
        intro hh
        apply h1
        unfold caseCompare
        rw [if_pos hba2]
        exact hh
      have h2' : caseCompare cs bs ≠ Ordering.lt := by
        intro hh
        apply h2
        unfold caseCompare
        rw [if_pos hcb2]
        exact hh
      exact caseCompare_notLT_trans as bs cs h1' h2' hcon
    · rw [if_neg hca] at hcon
      by_cases hlt : lowerByte c < lowerByte a
      · omega
      · rw [if_neg hlt] at hcon
        simp at hcon

theorem swap_ne_gt (o : Ordering) (h : o ≠ Ordering.lt) : o.swap ≠ Ordering.gt := by
  cases o <;> simp [Ordering.swap] at h ⊢

theorem ordBeq_lt_false_iff (o : Ordering) :
    ((o == Ordering.lt) = false) ↔ o ≠ Ordering.lt := by
  cases o <;> decide

theorem entLE_total (a b : FileInfoEx) : entLE a b ∨ entLE b a := by
  show fsAlphabetizeFoldersFiles b a = false ∨ fsAlphabetizeFoldersFiles a b = false
  unfold fsAlphabetizeFoldersFiles
  by_cases h : a.isDirectory = b.isDirectory
  · rw [if_pos h.symm, if_pos h]
    by_cases hlt : caseCompare b.name a.name = Ordering.lt
    · right
      rw [caseCompare_swap b.name a.name, hlt]
      decide
    · left
      exact (ordBeq_lt_false_iff _).mpr hlt
  · rw [if_neg (fun hh => h hh.symm), if_neg h]
    cases hb : b.isDirectory
    · left
      rfl
    · cases ha : a.isDirectory
      · right
        rfl
      · exact absurd (by rw [ha, hb]) h

theorem entLE_trans (a b c : FileInfoEx) (h1 : entLE a b) (h2 : entLE b c) : entLE a c := by
  show fsAlphabetizeFoldersFiles c a = false
  unfold entLE fsAlphabetizeFoldersFiles at h1 h2
  unfold fsAlphabetizeFoldersFiles
  cases ha : a.isDirectory <;> cases hb : b.isDirectory <;> cases hc : c.isDirectory <;>
    simp [ha, hb, hc] at h1 h2 ⊢ <;>
    exact (ordBeq_lt_false_iff _).mpr (caseCompare_notLT_trans a.name b.name c.name
      ((ordBeq_lt_false_iff _).mp h1) ((ordBeq_lt_false_iff _).mp h2))

theorem entLE_imp (a b : FileInfoEx) (h : entLE a b) :
    (b.isDirectory = true → a.isDirectory = true) ∧
    (a.isDirectory = b.isDirectory → caseCompare a.name b.name ≠ Ordering.gt) := by
  unfold entLE fsAlphabetizeFoldersFiles at h
  cases ha : a.isDirectory <;> cases hb : b.isDirectory <;> simp [ha, hb] at h ⊢ <;>
    (rw [caseCompare_swap b.name a.name]
     exact swap_ne_gt _ ((ordBeq_lt_false_iff _).mp h))

/-- C8.  Directory-listing order: `fsGetDirectoryContentsEx` excludes the
`"."` and `".."` entries, and orders its result so that no file precedes a
directory and entries of the same kind are in case-insensitive lexicographic
order by name; on the spec's example — children `b.txt`, `A`, `a.txt`, `B`
(with `A`, `B` directories, plus the `"."`/`".."` pseudo-entries in the raw
enumeration) — the result order is `A, B, a.txt, b.txt`. -/
theorem fsGetDirectoryContentsEx_order :
    (∀ (fs : FS) (directory : Str),
      (∀ e ∈ fsGetDirectoryContentsEx fs directory, e.name ≠ [46] ∧ e.name ≠ [46, 46]) ∧
      List.Pairwise (fun a b => (b.isDirectory = true → a.isDirectory = true) ∧
        (a.isDirectory = b.isDirectory → caseCompare a.name b.name ≠ Ordering.gt))
        (fsGetDirectoryContentsEx fs directory)) ∧
    (fsGetDirectoryContentsEx
        [([100], FsEntry.dir [[46], [46, 46], [98, 46, 116, 120, 116], [65],
            [97, 46, 116, 120, 116], [66]]),
          ([100, 47, 65], FsEntry.dir []), ([100, 47, 66], FsEntry.dir []),
          ([100, 47, 98, 46, 116, 120, 116], FsEntry.file []),
          ([100, 47, 97, 46, 116, 120, 116], FsEntry.file [])] [100]).map
      (fun e => (e.name, e.isDirectory)) =
      [([65], true), ([66], true), ([97, 46, 116, 120, 116], false),
        ([98, 46, 116, 120, 116], false)] := by
  constructor
  · intro fs directory
    constructor
    · intro e he
      unfold fsGetDirectoryContentsEx at he
      rw [List.mem_insertionSort] at he
      obtain ⟨n, hn, rfl⟩ := List.mem_map.mp he
      have hp := (List.mem_filter.mp hn).2
      simp only [Bool.and_eq_true, Bool.not_eq_true'] at hp
      dsimp only
      constructor
      · intro hcon
        have h1 := hp.1
        rw [hcon] at h1
        simp at h1
      · intro hcon
        have h2 := hp.2
        rw [hcon] at h2
        simp at h2
    · haveI : IsTotal FileInfoEx entLE := ⟨entLE_total⟩
      haveI : IsTrans FileInfoEx entLE := ⟨entLE_trans⟩
      unfold fsGetDirectoryContentsEx
      exact List.Pairwise.imp (fun {a b} hab => entLE_imp a b hab)
        (List.sorted_insertionSort entLE _)
  · decide
